import Mathlib

/-!
# magio: ring queue, worker-pool context and socket wrapper

A shallow embedding of

* `RingQueue<T>` (`magio/core/Queue.h`, used by `ThreadPool.cpp` and exercised by
  `tests/v2/test_ring_queue.cpp`),
* `ThreadPool::Impl` (`src/magio/ThreadPool.cpp`),
* the handle management of `net::Socket` (`src/magio-v3/net/socket.cpp`),

followed by the properties established about them.
-/

namespace magio

/-! ## RingQueue -/

/-- Modelled from the spec: `RingQueue<T>` of `magio/core/Queue.h`, whose source is not
available.  Spec 4.4: "A FIFO queue ... Capacity starts at a small value (e.g., 64) and doubles
on overflow; never shrinks.  Operations push, pop, front, size, empty."  The storage is a ring
of `capacity` slots; a slot is `some v` while it holds a constructed element and `none`
otherwise.  `head` is the index of the oldest element and `size` the number of elements. -/
structure RingQueue (α : Type) where
  buf : List (Option α)
  capacity : Nat
  head : Nat
  size : Nat
deriving DecidableEq

namespace RingQueue

variable {α : Type}

/-- Modelled from the spec: `RingQueue(size_t capacity)`, an empty queue with `cap` free slots. -/
def new (cap : Nat) : RingQueue α :=
  { buf := List.replicate cap none, capacity := cap, head := 0, size := 0 }

/-- Modelled from the spec: the capacity of a default-constructed queue, "a small value
(e.g., 64)"; it is also the capacity `ThreadPool::Impl` passes for `posted_tasks`. -/
def default_capacity : Nat := 64

/-- Content of storage slot `i`. -/
def slot (q : RingQueue α) (i : Nat) : Option α := q.buf.getD i none

/-- Modelled from the spec: `empty()`. -/
def empty (q : RingQueue α) : Bool := q.size == 0

/-- Modelled from the spec: `front()`, the content of the slot at `head`. -/
def front (q : RingQueue α) : Option α := q.slot q.head

/-- Modelled from the spec: the reallocation done on overflow.  The capacity doubles, the
elements are moved to the start of the new storage in queue order. -/
def grow (q : RingQueue α) : RingQueue α :=
  { buf := (List.range q.size).map (fun i => q.slot ((q.head + i) % q.capacity))
            ++ List.replicate (2 * q.capacity - q.size) none
    capacity := 2 * q.capacity
    head := 0
    size := q.size }

/-- Modelled from the spec: `push(v)`.  A full queue grows first; the element is constructed in
the slot after the last one, wrapping around the end of the storage. -/
def push (q : RingQueue α) (v : α) : RingQueue α :=
  let q1 := if q.size = q.capacity then q.grow else q
  { q1 with
    buf := q1.buf.set ((q1.head + q1.size) % q1.capacity) (some v)
    size := q1.size + 1 }

/-- Modelled from the spec: `pop()`.  The front element is destroyed and `head` advances,
wrapping around the end of the storage. -/
def pop (q : RingQueue α) : RingQueue α :=
  { q with
    buf := q.buf.set q.head none
    head := (q.head + 1) % q.capacity
    size := q.size - 1 }

/-- Number of constructed elements held in the storage (the test's `Counter::NUM`). -/
def live (q : RingQueue α) : Nat := q.buf.countP Option.isSome

/-- The elements of the queue from front to back. -/
def toList (q : RingQueue α) : List α :=
  (List.range q.size).filterMap (fun i => q.slot ((q.head + i) % q.capacity))

/-- Representation relation: the ring `q` holds exactly the elements `l`, oldest first, and
every slot outside the window `[head, head + size)` is unconstructed. -/
def Holds (q : RingQueue α) (l : List α) : Prop :=
  0 < q.capacity ∧ q.buf.length = q.capacity ∧ q.head < q.capacity ∧ q.size = l.length ∧
  l.length ≤ q.capacity ∧ q.live = l.length ∧
  ∀ k, k < q.capacity → q.slot ((q.head + k) % q.capacity) = l[k]?

end RingQueue

/-- One operation of a queue client. -/
inductive QueueOp (α : Type) where
  | push (v : α)
  | pop
deriving DecidableEq

namespace QueueOp

variable {α : Type}

/-- Runs a sequence of operations; the second component collects, for every `pop`, the value
read by `front()` just before it (as in `test_pop`). -/
def exec : RingQueue α → List (QueueOp α) → RingQueue α × List (Option α)
  | q, [] => (q, [])
  | q, .push v :: ops => exec (q.push v) ops
  | q, .pop :: ops =>
    let r := exec q.pop ops
    (r.1, q.front :: r.2)

/-- The values pushed by a sequence of operations, in order. -/
def pushed : List (QueueOp α) → List α
  | [] => []
  | .push v :: ops => v :: pushed ops
  | .pop :: ops => pushed ops

/-- The number of pops in a sequence of operations. -/
def pops : List (QueueOp α) → Nat
  | [] => 0
  | .push _ :: ops => pops ops
  | .pop :: ops => pops ops + 1

/-- A sequence is valid from a queue of `n` elements when every `pop` meets a non-empty queue. -/
def valid : Nat → List (QueueOp α) → Bool
  | _, [] => true
  | n, .push _ :: ops => valid (n + 1) ops
  | 0, .pop :: _ => false
  | n + 1, .pop :: ops => valid n ops

/-- The scenario of `test_pop` up to its last pop: 100 pushes of `0..99`, then 50 pops. -/
def test_pop_ops : List (QueueOp Nat) :=
  (List.range 100).map QueueOp.push ++ List.replicate 50 QueueOp.pop

/-- The whole scenario of `test_pop`: 100 pushes, 50 pops, 50 pushes of `100..149`. -/
def test_pop_all : List (QueueOp Nat) :=
  test_pop_ops ++ (List.range 50).map (fun i => QueueOp.push (100 + i))

/-- The scenario of `test_push`: 100 pushes of `0..99`. -/
def test_push_ops : List (QueueOp Nat) := (List.range 100).map QueueOp.push

end QueueOp

/-! ## Timer wheel -/

/-- `TimerID`, the value returned by `set_timeout`. -/
abbrev TimerID := Nat

/-- The width of `size_t` taken for `std::atomic_size_t count` (an LP64 target): arithmetic on
the counter is modulo `SIZE_MOD`. -/
def SIZE_MOD : Nat := 2 ^ 64

/-- Modelled from the spec: a timer entry "(id, deadline, callback)" of `magio/core/TimingTask.h`,
whose source is not available.  `deadline = none` is the entry that never fires
("delay == MAX means never fires"). -/
structure TimingTask (H : Type) where
  id : TimerID
  deadline : Option Nat
  callback : H
deriving DecidableEq

namespace TimingTask

variable {H : Type}

/-- Modelled from the spec: the order of timer entries, "ordered by (deadline, id)", an entry
that never fires coming after every entry with a deadline. -/
def before (a b : TimingTask H) : Bool :=
  match a.deadline, b.deadline with
  | some x, some y => decide (x < y) || (x == y && decide (a.id < b.id))
  | some _, none => true
  | none, some _ => false
  | none, none => decide (a.id < b.id)

/-- Whether the entry is due at time `now` ("deadline <= now"). -/
def expired (a : TimingTask H) (now : Nat) : Bool :=
  match a.deadline with
  | some d => decide (d ≤ now)
  | none => false

end TimingTask

/-- Modelled from the spec: `TimingTaskManager` of `magio/core/TimingTask.h`, whose source is not
available (spec 4.3, timer wheel): the entries in `(deadline, id)` order and the next id, ids
being "monotonically increasing". -/
structure TimingTaskManager (H : Type) where
  entries : List (TimingTask H)
  next_id : TimerID
deriving DecidableEq

namespace TimingTaskManager

variable {H : Type}

/-- Modelled from the spec: a timer wheel without entries. -/
def init : TimingTaskManager H := { entries := [], next_id := 0 }

/-- Inserts an entry at its place in `(deadline, id)` order. -/
def insert (e : TimingTask H) : List (TimingTask H) → List (TimingTask H)
  | [] => [e]
  | x :: xs => if e.before x then e :: x :: xs else x :: insert e xs

/-- Modelled from the spec: "`set_timeout(delay, cb) -> id`: insert an entry with
`deadline = now + delay`.  `delay == MAX` means never fires".  The clock value `now` read by the
call is an argument. -/
def set_timeout (m : TimingTaskManager H) (now ms : Nat) (cb : H) :
    TimerID × TimingTaskManager H :=
  let dl := if ms = SIZE_MOD - 1 then none else some (now + ms)
  (m.next_id,
   { entries := insert { id := m.next_id, deadline := dl, callback := cb } m.entries
     next_id := m.next_id + 1 })

/-- Modelled from the spec: "`cancel(id)`: remove entry if present." -/
def cancel (m : TimingTaskManager H) (id : TimerID) : TimingTaskManager H :=
  { m with entries := m.entries.filter (fun e => e.id != id) }

/-- Modelled from the spec: `empty()`. -/
def empty (m : TimingTaskManager H) : Bool := m.entries.isEmpty

/-- Modelled from the spec: `get_expired_task()`, one step of "drain_expired": the first entry in
`(deadline, id)` order is removed and its callback returned (not invoked) when its deadline is
`<= now`; otherwise there is no result. -/
def get_expired_task (m : TimingTaskManager H) (now : Nat) :
    Option (H × TimingTaskManager H) :=
  match m.entries with
  | [] => none
  | e :: rest => if e.expired now then some (e.callback, { m with entries := rest }) else none

/-- Whether the timer set has an entry with this id. -/
def has_id (m : TimingTaskManager H) (id : TimerID) : Bool :=
  m.entries.any (fun e => e.id == id)

end TimingTaskManager

/-! ## ThreadPool::Impl -/

/-- `ThreadPool::Impl::State`. -/
inductive State where
  | Stop
  | Running
  | PendingDestroy
deriving DecidableEq

/-- The two condition variables of `ThreadPool::Impl`. -/
inductive CondVar where
  | posted_cv
  | timed_cv
deriving DecidableEq

/-- The calls of the pool that are visible from outside the data it owns: notifications of a
condition variable, a worker taking a task off `posted_tasks`, and a task being invoked. -/
inductive Event (H : Type) where
  | notify_one (cv : CondVar)
  | notify_all (cv : CondVar)
  | dequeue (task : H)
  | invoke (task : H)
deriving DecidableEq

/-- Where a thread stands inside `Impl::worker`: blocked in `posted_cv.wait`, holding a dequeued
task that it is running, or returned. -/
inductive WorkerPc (H : Type) where
  | waiting
  | running (task : H)
  | exited
deriving DecidableEq

/-- Where the thread stands inside `Impl::time_poller`: blocked in `timed_cv.wait`, inside the
inner `for` loop, or returned. -/
inductive PollerPc where
  | waiting
  | polling
  | exited
deriving DecidableEq

/-- `ThreadPool::Impl`.  `workers` and `pollers` are the threads of `threads` by the function
they run; `log` records the events in the order they happen.  `Handler` is abstract (`H`). -/
structure Impl (H : Type) where
  state : State
  posted_tasks : RingQueue H
  timed_tasks : TimingTaskManager H
  count : Nat
  workers : List (WorkerPc H)
  pollers : List PollerPc
  log : List (Event H)
deriving DecidableEq

namespace WorkerPc

variable {H : Type}

/-- Whether the worker is between `posted_tasks.pop()` and `count.fetch_sub`. -/
def is_running : WorkerPc H → Bool
  | .running _ => true
  | _ => false

/-- Whether the worker has returned from `Impl::worker`. -/
def is_exited : WorkerPc H → Bool
  | .exited => true
  | _ => false

end WorkerPc

namespace Impl

variable {H : Type}

/-- `new Impl`: the member initialisers `state = Stop`, `posted_tasks{64}`, `count = 0`. -/
def init : Impl H :=
  { state := .Stop
    posted_tasks := RingQueue.new 64
    timed_tasks := TimingTaskManager.init
    count := 0
    workers := []
    pollers := []
    log := [] }

/-- `count.fetch_add(1)`. -/
def fetch_add (c : Nat) : Nat := (c + 1) % SIZE_MOD

/-- `count.fetch_sub(1)`. -/
def fetch_sub (c : Nat) : Nat := (c + (SIZE_MOD - 1)) % SIZE_MOD

/-- `ThreadPool::run`. -/
def run (p : Impl H) : Impl H :=
  { p with state := .Running
           log := p.log ++ [.notify_all .posted_cv, .notify_all .timed_cv] }

/-- `ThreadPool::stop`. -/
def stop (p : Impl H) : Impl H :=
  { p with state := .Stop
           log := p.log ++ [.notify_all .posted_cv, .notify_all .timed_cv] }

/-- `ThreadPool::Impl::destroy`. -/
def destroy (p : Impl H) : Impl H :=
  { p with state := .PendingDestroy
           log := p.log ++ [.notify_all .posted_cv, .notify_all .timed_cv] }

/-- `ThreadPool::Impl::post`. -/
def post (p : Impl H) (handler : H) : Impl H :=
  { p with count := fetch_add p.count
           posted_tasks := p.posted_tasks.push handler
           log := p.log ++ [.notify_one .posted_cv] }

/-- `ThreadPool::Impl::dispatch`. -/
def dispatch (p : Impl H) (handler : H) : Impl H := p.post handler

/-- `ThreadPool::Impl::set_timeout`; `now` is the clock value read by the timer set. -/
def set_timeout (p : Impl H) (now ms : Nat) (handler : H) : TimerID × Impl H :=
  let r := p.timed_tasks.set_timeout now ms handler
  (r.1, { p with count := fetch_add p.count
                 timed_tasks := r.2
                 log := p.log ++ [.notify_one .timed_cv] })

/-- `ThreadPool::Impl::clear`. -/
def clear (p : Impl H) (id : TimerID) : Impl H :=
  { p with timed_tasks := p.timed_tasks.cancel id
           count := fetch_sub p.count }

/-- The `ThreadPool(thread_num)` constructor: `new Impl`, `thread_num` worker threads, the timer
thread, then `run()`. -/
def create (thread_num : Nat) : Impl H :=
  run { (init : Impl H) with workers := List.replicate thread_num .waiting
                             pollers := [.waiting] }

/-- One scheduling step of the `i`-th thread running `Impl::worker`.
Blocked in `posted_cv.wait`: the thread stays there until the predicate
`(state == Running && !posted_tasks.empty()) || state == PendingDestroy` holds; it then returns
on `PendingDestroy`, and otherwise moves the front task out and pops it.  Holding a task: it
invokes the task and does `count.fetch_sub(1)`.  (`front()` of a non-empty queue is a
constructed element; the `none` branch is the unconstructed slot, which leaves the thread where
it is.) -/
def worker_step (p : Impl H) (i : Nat) : Impl H :=
  match p.workers[i]? with
  | none => p
  | some .exited => p
  | some .waiting =>
    if (p.state = .Running ∧ p.posted_tasks.empty = false) ∨ p.state = .PendingDestroy then
      if p.state = .PendingDestroy then
        { p with workers := p.workers.set i .exited }
      else
        match p.posted_tasks.front with
        | none => p
        | some task =>
          { p with posted_tasks := p.posted_tasks.pop
                   workers := p.workers.set i (.running task)
                   log := p.log ++ [.dequeue task] }
    else p
  | some (.running task) =>
    { p with count := fetch_sub p.count
             workers := p.workers.set i .waiting
             log := p.log ++ [.invoke task] }

/-- One pass through the inner `for` loop of `Impl::time_poller`: when `get_expired_task()` has a
result the callback is handed to `post` and `count.fetch_sub(1)` follows; `none` is the `break`. -/
def time_poller_iter (p : Impl H) (now : Nat) : Option (Impl H) :=
  match p.timed_tasks.get_expired_task now with
  | some res =>
    let p1 := post { p with timed_tasks := res.2 } res.1
    some { p1 with count := fetch_sub p1.count }
  | none => none

/-- One scheduling step of the `j`-th thread running `Impl::time_poller`, at clock value `now`.
Blocked in `timed_cv.wait`: it stays until
`(state == Running && !timed_tasks.empty()) || state == PendingDestroy`, returns on
`PendingDestroy`, and otherwise enters the inner loop.  In the inner loop it makes one pass. -/
def time_poller_step (p : Impl H) (j : Nat) (now : Nat) : Impl H :=
  match p.pollers[j]? with
  | none => p
  | some .exited => p
  | some .waiting =>
    if (p.state = .Running ∧ p.timed_tasks.empty = false) ∨ p.state = .PendingDestroy then
      if p.state = .PendingDestroy then
        { p with pollers := p.pollers.set j .exited }
      else
        { p with pollers := p.pollers.set j .polling }
    else p
  | some .polling =>
    match time_poller_iter p now with
    | some p1 => p1
    | none => { p with pollers := p.pollers.set j .waiting }

/-- A step of one of the pool's own threads. -/
inductive ThreadStep where
  | worker (i : Nat)
  | time_poller (j : Nat) (now : Nat)
deriving DecidableEq

/-- Runs a step of one of the pool's threads. -/
def thread_step (p : Impl H) : ThreadStep → Impl H
  | .worker i => p.worker_step i
  | .time_poller j now => p.time_poller_step j now

/-- `ThreadPool::Impl::wait`.  `obs k` is the pool as it stands when the loop makes its `k`-th
check `count.load() == 0` (other threads run during the sleeps); the result is the index of the
check at which `wait` returns, `none` when it is still looping after `fuel` checks. -/
def wait (obs : Nat → Impl H) : Nat → Nat → Option Nat
  | 0, _ => none
  | fuel + 1, k => if (obs k).count = 0 then some k else wait obs fuel (k + 1)

/-- Whether every thread of `threads` has returned from its function. -/
def all_exited (p : Impl H) : Bool :=
  p.workers.all WorkerPc.is_exited && p.pollers.all (fun w => decide (w = .exited))

/-- `ThreadPool::Impl::join`: `wait()`, then `destroy()` on the pool as `wait` left it, then
`th.join()` for every thread.  `sched` is the sequence of steps the pool's threads make while
the caller is blocked in `th.join()`; the result is `none` while `join` has not returned. -/
def join (obs : Nat → Impl H) (fuel : Nat) (sched : List ThreadStep) : Option (Impl H) :=
  match wait obs fuel 0 with
  | none => none
  | some k =>
    let p1 := destroy (obs k)
    let p2 := sched.foldl thread_step p1
    if p2.all_exited then some p2 else none

/-- The operations on a pool, by the caller or by one of its threads. -/
inductive Step (H : Type) where
  | post (handler : H)
  | set_timeout (now ms : Nat) (handler : H)
  | clear (id : TimerID)
  | run
  | stop
  | destroy
  | thread (t : ThreadStep)
deriving DecidableEq

/-- Runs one operation. -/
def step (p : Impl H) : Step H → Impl H
  | .post h => p.post h
  | .set_timeout now ms h => (p.set_timeout now ms h).2
  | .clear id => p.clear id
  | .run => p.run
  | .stop => p.stop
  | .destroy => p.destroy
  | .thread t => p.thread_step t

/-- Runs a sequence of operations. -/
def steps (p : Impl H) (tr : List (Step H)) : Impl H := tr.foldl step p

/-- Number of tasks in the ready queue. -/
def ready (p : Impl H) : Nat := p.posted_tasks.size

/-- Number of pending timers. -/
def pending_timers (p : Impl H) : Nat := p.timed_tasks.entries.length

/-- Number of tasks that a worker has dequeued and not yet finished. -/
def executing (p : Impl H) : Nat := p.workers.countP WorkerPc.is_running

/-- The tasks taken off the ready queue, in the order the workers took them. -/
def dequeued (p : Impl H) : List H :=
  p.log.filterMap (fun e => match e with | .dequeue t => some t | _ => none)

/-- The in-flight total the counter is meant to track. -/
def in_flight (p : Impl H) : Nat := p.ready + p.pending_timers + p.executing

/-- The tasks invoked so far. -/
def invoked (p : Impl H) : List H :=
  p.log.filterMap (fun e => match e with | .invoke t => some t | _ => none)

end Impl

namespace Impl.Step

variable {H : Type}

/-- The four kinds of step that carry tasks through the pool: `post`, `set_timeout`, a step of a
worker and a step of the timer thread. -/
def carries_task : Step H → Bool
  | .post _ => true
  | .set_timeout _ _ _ => true
  | .thread _ => true
  | _ => false

/-- Whether the step is made by the timer thread. -/
def by_poller : Step H → Bool
  | .thread (.time_poller _ _) => true
  | _ => false

/-- The task handed to `post` by the step, if it is a `post`. -/
def posted : Step H → Option H
  | .post h => some h
  | _ => none

end Impl.Step

namespace State

/-- The steps of the chain `Stop -> Running -> PendingDestroy`, a state that stays as it is
included. -/
def follows (a b : State) : Bool :=
  decide (a = b) || (decide (a = .Stop) && decide (b = .Running))
    || (decide (a = .Running) && decide (b = .PendingDestroy))

end State

/-! ## net::Socket (magio-v3) -/

namespace net

/-- `Ip`. -/
inductive Ip where
  | v4
  | v6
deriving DecidableEq

/-- `Transport`. -/
inductive Transport where
  | Tcp
  | Udp
deriving DecidableEq

/-- The calls a socket makes to the operating system and to the I/O service. -/
inductive Effect where
  | close_socket (handle : Int)
  | service_cancel (handle : Int)
  | bind (handle : Int)
  | relate (handle : Int)
  | listen (handle : Int)
  | service_receive (ioc : Nat)
  | service_send (ioc : Nat)
deriving DecidableEq

/-- The data members of `Socket`; `Socket::Handle` is the descriptor, `-1` when there is none. -/
structure Socket where
  is_related_ : Bool
  handle_ : Int
  ip_ : Ip
  transport_ : Transport
deriving DecidableEq

namespace Socket

/-- `Socket::reset`. -/
def reset (_s : Socket) : Socket :=
  { is_related_ := false, handle_ := -1, ip_ := .v4, transport_ := .Tcp }

/-- `Socket::close`: the socket afterwards and the calls made, `detail::close_socket(handle_)`
being recorded as `Effect.close_socket`. -/
def close (s : Socket) : Socket × List Effect :=
  if s.handle_ ≠ -1 then (s.reset, [.close_socket s.handle_]) else (s, [])

/-- `detail::open_socket` followed by the assignments of `Socket::open`, after the `close()` it
starts with.  `os_handle` is what `::socket` returned (`-1` on failure); the last component
tells whether `ec` was set. -/
def open_ (s : Socket) (ip : Ip) (tp : Transport) (os_handle : Int) :
    Socket × List Effect × Bool :=
  let r := s.close
  ({ r.1 with handle_ := os_handle, ip_ := ip, transport_ := tp }, r.2, decide (os_handle = -1))

/-- Two `close()` calls in a row: the socket afterwards and all calls made. -/
def close_twice (s : Socket) : Socket × List Effect :=
  let r1 := s.close
  let r2 := r1.1.close
  (r2.1, r1.2 ++ r2.2)

/-- `Socket::cancel`: the socket afterwards and the calls made, the request handed to
`get_service().cancel` being recorded with its `handle` field. -/
def cancel (s : Socket) : Socket × List Effect :=
  if (-1 : Int) ≠ s.handle_ then (s, [.service_cancel s.handle_]) else (s, [])

end Socket

/-- The `Socket` objects of a program, by address. -/
abbrev Store := Nat → Socket

namespace Store

/-- The store whose objects at addresses `0, 1, ...` are those of `l`, every other address holding
a socket without a handle. -/
def of_list (l : List Socket) : Store := fun k => l.getD k (Socket.mk false (-1) .v4 .Tcp)

/-- The store with the object at address `a` replaced. -/
def set (st : Store) (a : Nat) (s : Socket) : Store := fun k => if k = a then s else st k

/-- `Socket::Socket(Socket&& other)`: the object at `a` is constructed with its four members
initialised from those of `other`, the object at `b`; then `other.reset()`.  The second
component is the list of calls made. -/
def move_construct (st : Store) (a b : Nat) : Store × List Effect :=
  let st1 := st.set a { is_related_ := (st b).is_related_, handle_ := (st b).handle_,
                        ip_ := (st b).ip_, transport_ := (st b).transport_ }
  (st1.set b (st1 b).reset, [])

/-- `Socket::operator=(Socket&& other)` with `*this` at `a` and `other` at `b` (the same address
for a self-assignment): the four member assignments in order, each reading `other` as it is at
that moment, then `other.reset()`.  The second component is the list of calls made. -/
def move_assign (st : Store) (a b : Nat) : Store × List Effect :=
  let st1 := st.set a { st a with is_related_ := (st b).is_related_ }
  let st2 := st1.set a { st1 a with handle_ := (st1 b).handle_ }
  let st3 := st2.set a { st2 a with ip_ := (st2 b).ip_ }
  let st4 := st3.set a { st3 a with transport_ := (st3 b).transport_ }
  (st4.set b (st4 b).reset, [])

end Store

/-! ### Completion hooks of the callback overloads -/

/-- `std::error_code` by its value: `if (ec)` is `ec ≠ 0`. -/
abbrev ErrorCode := Int

namespace Heap

end Heap

/-- What a completion hook does that is visible outside: an invocation of the callable at
address `cb` with its arguments, and a `delete`. -/
inductive HookEvent where
  | call (cb : Nat) (ec : ErrorCode) (len : Nat)
  | delete_ (addr : Nat)
deriving DecidableEq

/-- The calls of the callable recorded in a list of hook events, with their arguments. -/
def HookEvent.calls (evs : List HookEvent) : List (Nat × ErrorCode × Nat) :=
  evs.filterMap (fun e => match e with | .call cb ec len => some (cb, ec, len) | _ => none)

namespace Socket

end Socket

/-- Raw memory: a list of bytes. -/
abbrev Bytes := List Nat

/-- `AF_INET`. -/
def AF_INET : Nat := 2

/-- `AF_INET6` (its Linux value). -/
def AF_INET6 : Nat := 10

/-- `sizeof(sockaddr_in)`. -/
def SIZEOF_SOCKADDR_IN : Nat := 16

/-- `sizeof(sockaddr_in6)`. -/
def SIZEOF_SOCKADDR_IN6 : Nat := 28

/-- The 16-bit value a host of the given endianness reads from two consecutive bytes. -/
def load_u16 (big_endian : Bool) (b0 b1 : Nat) : Nat :=
  if big_endian then b0 * 256 + b1 else b0 + b1 * 256

/-- The two bytes a host of the given endianness stores for a 16-bit value. -/
def store_u16 (big_endian : Bool) (v : Nat) : Nat × Nat :=
  if big_endian then (v / 256 % 256, v % 256) else (v % 256, v / 256 % 256)

/-- `ntohs`: the identity on a big-endian host, the byte swap on a little-endian one. -/
def ntohs (big_endian : Bool) (v : Nat) : Nat :=
  if big_endian then v % 65536 else (v % 256) * 256 + v / 256 % 256

/-- `htons`: the identity on a big-endian host, the byte swap on a little-endian one. -/
def htons (big_endian : Bool) (v : Nat) : Nat :=
  if big_endian then v % 65536 else (v % 256) * 256 + v / 256 % 256

/-- `memcpy(dst, src, n)`: the first `n` bytes of `dst` are replaced by those of `src`. -/
def memcpy (dst src : Bytes) (n : Nat) : Bytes := src.take n ++ dst.drop n

/-- The `sa_family` / `sin_family` / `sin6_family` field: the 16-bit value at offset 0. -/
def sa_family (big_endian : Bool) (sa : Bytes) : Nat :=
  load_u16 big_endian (sa.getD 0 0) (sa.getD 1 0)

/-- The `sin_port` field, which `sin6_port` shares: the 16-bit value at offset 2, as the host
reads it. -/
def sin_port (big_endian : Bool) (sa : Bytes) : Nat :=
  load_u16 big_endian (sa.getD 2 0) (sa.getD 3 0)

/-- The assignment `addr->sin_port = v`. -/
def set_sin_port (big_endian : Bool) (sa : Bytes) (v : Nat) : Bytes :=
  (sa.set 2 (store_u16 big_endian v).1).set 3 (store_u16 big_endian v).2

/-- The assignment `addr->sin6_port = v`; `sin6_port` is at offset 2 as well. -/
def set_sin6_port (big_endian : Bool) (sa : Bytes) (v : Nat) : Bytes :=
  (sa.set 2 (store_u16 big_endian v).1).set 3 (store_u16 big_endian v).2

/-- The data members of `IpAddress`: the socket address storage, the text and the version. -/
structure IpAddress where
  addr_in_ : Bytes
  ip_ : String
  level_ : Ip
deriving DecidableEq

namespace IpAddress

/-- `IpAddress::is_v4` (declared in `magio-v3/net/address.h`): the version tag is `v4`. -/
def is_v4 (a : IpAddress) : Bool := decide (a.level_ = .v4)

/-- `IpAddress::addr_len`. -/
def addr_len (big_endian : Bool) (a : IpAddress) : Nat :=
  if sa_family big_endian a.addr_in_ = AF_INET then SIZEOF_SOCKADDR_IN else SIZEOF_SOCKADDR_IN6

end IpAddress

/-- `make_address(sockaddr* paddr)`.  `dflt` is the default-constructed `IpAddress` the function
starts from and `ntop family bytes` the text `inet_ntop` writes. -/
def make_address_sockaddr (big_endian : Bool) (ntop : Nat → Bytes → String) (dflt : IpAddress)
    (paddr : Bytes) : IpAddress :=
  let addr_len := if sa_family big_endian paddr = AF_INET then SIZEOF_SOCKADDR_IN
    else SIZEOF_SOCKADDR_IN6
  { addr_in_ := memcpy dflt.addr_in_ paddr addr_len
    ip_ := ntop (sa_family big_endian paddr) paddr
    level_ := if sa_family big_endian paddr = AF_INET then .v4 else .v6 }

/-- The data members of `EndPoint`. -/
structure EndPoint where
  address_ : IpAddress
  port_ : Nat
deriving DecidableEq

/-- `EndPoint::EndPoint(IpAddress address, PortType port)`. -/
def EndPoint.create (big_endian : Bool) (address : IpAddress) (port : Nat) : EndPoint :=
  { port_ := port
    address_ :=
      if address.is_v4 then
        { address with addr_in_ := set_sin_port big_endian address.addr_in_ (htons big_endian port) }
      else
        { address with
          addr_in_ := set_sin6_port big_endian address.addr_in_ (htons big_endian port) } }

/-- The endpoint `Socket::receive_from` reports for the source address `remote_addr` that the
service stored in the request:
`EndPoint(make_address((sockaddr*)&ioc.remote_addr), ::ntohs(ioc.remote_addr.sin_port))`. -/
def receive_from_endpoint (big_endian : Bool) (ntop : Nat → Bytes → String) (dflt : IpAddress)
    (remote_addr : Bytes) : EndPoint :=
  EndPoint.create big_endian (make_address_sockaddr big_endian ntop dflt remote_addr)
    (ntohs big_endian (sin_port big_endian remote_addr))

/-- A zero-initialised `sockaddr_in` / `sockaddr_in6` of `size` bytes with its family field set
(`sockaddr_in addr{}; addr.sin_family = af;`). -/
def zeroed_sockaddr (big_endian : Bool) (af size : Nat) : Bytes :=
  ((List.replicate size 0).set 0 (store_u16 big_endian af).1).set 1 (store_u16 big_endian af).2

/-- The bytes `inet_pton` leaves in the address field (`len` bytes at offset `off`): it stores the
parsed address `parsed` when it returns 1 and leaves the field as it was otherwise. -/
def pton_store (sa : Bytes) (off len : Nat) (ret : Int) (parsed : Bytes) : Bytes :=
  if ret = 1 then sa.take off ++ (parsed ++ List.replicate len 0).take len ++ sa.drop (off + len)
  else sa

/-- `make_address(std::string_view str, std::error_code& ec)`: the address and the value of `ec`
afterwards.  `pton af str` is the return value of `inet_pton(af, str, dst)` with the address it
parsed, `errno` the value `SYSTEM_ERROR_CODE` takes, `dflt` the default-constructed
`IpAddress`. -/
def make_address (big_endian : Bool) (pton : Nat → String → Int × Bytes) (errno : ErrorCode)
    (dflt : IpAddress) (str : String) (ec : ErrorCode) : IpAddress × ErrorCode :=
  if str.toList.contains '.' then
    let addr := zeroed_sockaddr big_endian AF_INET SIZEOF_SOCKADDR_IN
    let r := pton AF_INET str
    if r.1 = -1 then (dflt, errno)
    else
      ({ addr_in_ := memcpy dflt.addr_in_ (pton_store addr 4 4 r.1 r.2) SIZEOF_SOCKADDR_IN
         ip_ := str
         level_ := .v4 }, ec)
  else
    let addr := zeroed_sockaddr big_endian AF_INET6 SIZEOF_SOCKADDR_IN6
    let r := pton AF_INET6 str
    if r.1 = -1 then (dflt, errno)
    else
      ({ addr_in_ := memcpy dflt.addr_in_ (pton_store addr 8 16 r.1 r.2) SIZEOF_SOCKADDR_IN6
         ip_ := str
         level_ := .v6 }, ec)

/-- A default-constructed `IpAddress` with zeroed storage of 32 bytes, for examples. -/
def sample_default_address : IpAddress :=
  { addr_in_ := List.replicate 32 0, ip_ := "", level_ := .v4 }

/-- The `sockaddr_in` of `127.0.0.1:8080` as a little-endian host holds it, in the
`sockaddr_in6`-sized storage of a request. -/
def sample_sockaddr_in : Bytes :=
  [2, 0, 31, 144, 127, 0, 0, 1] ++ List.replicate 20 0

/-- An `inet_pton` that accepts exactly `"127.0.0.1"` as IPv4 and `"::1"` as IPv6, for
examples. -/
def sample_pton (af : Nat) (str : String) : Int × Bytes :=
  if af = AF_INET ∧ str = "127.0.0.1" then (1, [127, 0, 0, 1])
  else if af = AF_INET6 ∧ str = "::1" then (1, List.replicate 15 0 ++ [1])
  else (0, [])

/-! ### Acceptor -/

/-- What the operating system and the service answer during one `bind_and_listen`: the platform,
the result of `::socket` with the `SYSTEM_ERROR_CODE` after it, the result of `::bind` with the
`SYSTEM_ERROR_CODE` after it, the value `relate` stores in `ec` (0 when it stores nothing), and
the result of `::listen` with the `SOCKET_ERROR_CODE` after it. -/
structure OsAnswers where
  windows : Bool
  os_handle : Int
  errno_open : ErrorCode
  bind_ret : Int
  errno_bind : ErrorCode
  relate_ec : ErrorCode
  listen_ret : Int
  errno_listen : ErrorCode
deriving DecidableEq

namespace OsAnswers

/-- The open step succeeds: `::socket` did not return `-1`. -/
def open_ok (os : OsAnswers) : Bool := decide (os.os_handle ≠ -1)

/-- The bind step succeeds: `::bind` did not return `-1` and, on Windows, `relate` stored no
error. -/
def bind_ok (os : OsAnswers) : Bool :=
  decide (os.bind_ret ≠ -1) && (!os.windows || decide (os.relate_ec = 0))

/-- The listen step succeeds: `::listen` did not return `-1`. -/
def listen_ok (os : OsAnswers) : Bool := decide (os.listen_ret ≠ -1)

/-- The error code of a failing bind step: that of `::bind`, or else the one `relate` stored. -/
def bind_error (os : OsAnswers) : ErrorCode :=
  if os.bind_ret = -1 then os.errno_bind else os.relate_ec

end OsAnswers

/-- `Socket::bind`: the calls made and the value of `ec` afterwards. -/
def Socket.bind (s : Socket) (os : OsAnswers) (ec : ErrorCode) : List Effect × ErrorCode :=
  if os.bind_ret = -1 then ([.bind s.handle_], os.errno_bind)
  else if os.windows then
    ([.bind s.handle_, .relate s.handle_], if os.relate_ec ≠ 0 then os.relate_ec else ec)
  else ([.bind s.handle_], ec)

/-- The data member of `Acceptor`. -/
structure Acceptor where
  listener_ : Socket
deriving DecidableEq

/-- `Acceptor::bind_and_listen`, `ip` being `ep.address().ip()`: the acceptor afterwards, the
calls made and the value of `ec` afterwards. -/
def Acceptor.bind_and_listen (a : Acceptor) (ip : Ip) (os : OsAnswers) (ec : ErrorCode) :
    Acceptor × List Effect × ErrorCode :=
  let r1 := a.listener_.open_ ip .Tcp os.os_handle
  let ec1 := if r1.2.2 then os.errno_open else ec
  if ec1 ≠ 0 then ({ listener_ := r1.1 }, r1.2.1, ec1)
  else
    let r2 := r1.1.bind os ec1
    if r2.2 ≠ 0 then ({ listener_ := r1.1 }, r1.2.1 ++ r2.1, r2.2)
    else if os.listen_ret = -1 then
      ({ listener_ := r1.1 }, r1.2.1 ++ r2.1 ++ [.listen r1.1.handle_], os.errno_listen)
    else ({ listener_ := r1.1 }, r1.2.1 ++ r2.1 ++ [.listen r1.1.handle_], r2.2)

/-- Answers of a Linux host on which `::socket` returns descriptor 5, `::bind` fails with error
98 and `::listen` would succeed, for examples. -/
def sample_bind_fails : OsAnswers :=
  { windows := false, os_handle := 5, errno_open := 24, bind_ret := -1, errno_bind := 98,
    relate_ec := 0, listen_ret := 0, errno_listen := 98 }

end net

/-! # Properties -/

/-! ### Representation lemmas for the ring -/

namespace RingQueue

variable {α : Type}

theorem slot_set (q : RingQueue α) (i j : Nat) (x : Option α) :
    (q.buf.set i x).getD j none = if i = j ∧ i < q.buf.length then x else q.slot j := by
  unfold slot
  rw [List.getD_eq_getElem?_getD, List.getD_eq_getElem?_getD, List.getElem?_set]
  by_cases h : i = j
  · subst h
    by_cases h2 : i < q.buf.length
    · simp [h2]
    · have : q.buf[i]? = none := List.getElem?_eq_none (by omega)
      simp [h2, this]
  · simp [h]

theorem mod_window_inj {c h a b : Nat} (ha : a < c) (hb : b < c)
    (e : (h + a) % c = (h + b) % c) : a = b := by
  have h1 : a ≡ b [MOD c] := Nat.ModEq.add_left_cancel' h e
  have h2 : a % c = b % c := h1
  rwa [Nat.mod_eq_of_lt ha, Nat.mod_eq_of_lt hb] at h2

theorem holds_new (cap : Nat) (hcap : 0 < cap) : Holds (new cap : RingQueue α) [] := by
  refine ⟨hcap, by simp [new], hcap, rfl, Nat.zero_le _, ?_, ?_⟩
  · simp [live, new, List.countP_replicate]
  · intro k _
    simp only [slot, new, List.getD_eq_getElem?_getD, List.getElem?_replicate]
    split <;> rfl

/-- Constructing an element in the free slot after the last one appends it to the queue. -/
theorem holds_store {q : RingQueue α} {l : List α} (h : Holds q l) (hlt : q.size < q.capacity)
    (v : α) :
    Holds { q with buf := q.buf.set ((q.head + q.size) % q.capacity) (some v)
                   size := q.size + 1 } (l ++ [v]) := by
  obtain ⟨hc, hb, hh, hs, hle, hlive, hslot⟩ := h
  have hidx : (q.head + q.size) % q.capacity < q.buf.length := by
    rw [hb]; exact Nat.mod_lt _ hc
  have hfree : q.buf[(q.head + q.size) % q.capacity]? = some none := by
    have h1 := hslot q.size hlt
    rw [List.getElem?_eq_none (by omega : l.length ≤ q.size)] at h1
    unfold slot at h1
    rw [List.getD_eq_getElem?_getD, List.getElem?_eq_getElem hidx] at h1
    rw [List.getElem?_eq_getElem hidx]
    simpa using h1
  refine ⟨hc, by simpa using hb, hh, by simp [hs], by simp; omega, ?_, ?_⟩
  · have hget : q.buf[(q.head + q.size) % q.capacity] = none := by
      rw [List.getElem?_eq_getElem hidx] at hfree
      exact Option.some.inj hfree
    show List.countP Option.isSome (q.buf.set _ _) = _
    rw [List.countP_set _ _ _ _ hidx, hget]
    have : q.buf.countP Option.isSome = l.length := hlive
    simp [this]
  · intro k hk
    show (q.buf.set _ _).getD _ none = _
    rw [slot_set]
    by_cases hks : k = q.size
    · subst hks
      simp only [hidx, and_self, if_true]
      rw [hs]; simp
    · have hne : ¬ ((q.head + q.size) % q.capacity = (q.head + k) % q.capacity) := by
        intro e
        exact hks (mod_window_inj hlt hk e).symm
      simp only [hne, false_and, if_false]
      rw [hslot k hk]
      by_cases hkl : k < l.length
      · rw [List.getElem?_append_left hkl]
      · rw [List.getElem?_eq_none (by omega), List.getElem?_eq_none (by simp; omega)]

/-- Growing a full queue keeps its elements and leaves room. -/
theorem holds_grow {q : RingQueue α} {l : List α} (h : Holds q l) (hfull : q.size = q.capacity) :
    Holds q.grow l := by
  obtain ⟨hc, hb, hh, hs, hle, hlive, hslot⟩ := h
  have hmap : (List.range q.size).map (fun i => q.slot ((q.head + i) % q.capacity))
      = l.map some := by
    apply List.ext_getElem?
    intro n
    rw [List.getElem?_map, List.getElem?_map]
    by_cases hn : n < q.size
    · rw [List.getElem?_range hn]
      simp only [Option.map_some']
      rw [hslot n (by omega)]
      rw [List.getElem?_eq_getElem (by omega : n < l.length)]
      simp
    · rw [List.getElem?_eq_none (by simp; omega), List.getElem?_eq_none (by omega)]
      simp
  have hbuf : q.grow.buf = l.map some ++ List.replicate (2 * q.capacity - q.size) none := by
    simp only [grow, hmap]
  refine ⟨by simp [grow]; omega, ?_, by simp [grow]; omega, hs, by simp [grow]; omega, ?_, ?_⟩
  · rw [hbuf]; simp [grow]; omega
  · show List.countP Option.isSome q.grow.buf = _
    rw [hbuf, List.countP_append, List.countP_replicate, List.countP_map]
    simp [Function.comp_def]
  · intro k hk
    have hk2 : k < 2 * q.capacity := hk
    show q.grow.buf.getD ((0 + k) % (2 * q.capacity)) none = _
    rw [Nat.zero_add, Nat.mod_eq_of_lt hk2, hbuf, List.getD_eq_getElem?_getD,
      List.getElem?_append]
    by_cases hkl : k < l.length
    · simp [hkl]
    · simp only [List.length_map, hkl, if_false, List.getElem?_replicate]
      rw [List.getElem?_eq_none (by omega)]
      split <;> rfl

/-- `push` appends at the back, whether or not the storage has to grow. -/
theorem holds_push {q : RingQueue α} {l : List α} (h : Holds q l) (v : α) :
    Holds (q.push v) (l ++ [v]) := by
  unfold push
  by_cases hfull : q.size = q.capacity
  · simp only [hfull, if_true]
    have hg := holds_grow h hfull
    have hlt : q.grow.size < q.grow.capacity := by
      have := h.1
      simp [grow, hfull]; omega
    have := holds_store hg hlt v
    simpa [hfull] using this
  · simp only [hfull, if_false]
    have hlt : q.size < q.capacity := by
      have := h.2.2.2.1; have := h.2.2.2.2.1; omega
    exact holds_store h hlt v

/-- `front` reads the oldest element. -/
theorem holds_front {q : RingQueue α} {x : α} {l : List α} (h : Holds q (x :: l)) :
    q.front = some x := by
  obtain ⟨hc, hb, hh, hs, hle, hlive, hslot⟩ := h
  have := hslot 0 hc
  simpa [front, Nat.mod_eq_of_lt hh] using this

/-- `pop` removes the oldest element and nothing else. -/
theorem holds_pop {q : RingQueue α} {x : α} {l : List α} (h : Holds q (x :: l)) :
    Holds q.pop l := by
  have hf := holds_front h
  obtain ⟨hc, hb, hh, hs, hle, hlive, hslot⟩ := h
  have hidx : q.head < q.buf.length := by omega
  have hget : q.buf[q.head] = some x := by
    unfold front slot at hf
    rw [List.getD_eq_getElem?_getD, List.getElem?_eq_getElem hidx] at hf
    simpa using hf
  simp only [List.length_cons] at hs hle hlive
  have hle' : l.length ≤ q.capacity := by omega
  refine ⟨hc, by simpa [pop] using hb, Nat.mod_lt _ hc, by simp [pop, hs], hle', ?_, ?_⟩
  · show List.countP Option.isSome (q.buf.set _ _) = _
    rw [List.countP_set _ _ _ _ hidx, hget]
    have : q.buf.countP Option.isSome = l.length + 1 := hlive
    simp [this]
  · intro k hk
    have hk' : k < q.capacity := hk
    show (q.buf.set q.head none).getD (((q.head + 1) % q.capacity + k) % q.capacity) none = _
    have e1 : ((q.head + 1) % q.capacity + k) % q.capacity
        = (q.head + (k + 1)) % q.capacity := by
      rw [Nat.add_mod, Nat.mod_mod, ← Nat.add_mod]
      congr 1; omega
    rw [e1, slot_set]
    by_cases hk1 : k + 1 < q.capacity
    · have hne : ¬ (q.head = (q.head + (k + 1)) % q.capacity) := by
        intro e
        have e2 : (q.head + 0) % q.capacity = (q.head + (k + 1)) % q.capacity := by
          rw [Nat.add_zero, Nat.mod_eq_of_lt hh]; exact e
        have := mod_window_inj hc hk1 e2
        omega
      simp only [hne, false_and, if_false]
      rw [hslot (k + 1) hk1, List.getElem?_cons_succ]
    · have hkc : k + 1 = q.capacity := by omega
      have e3 : (q.head + (k + 1)) % q.capacity = q.head := by
        rw [hkc, Nat.add_mod_right, Nat.mod_eq_of_lt hh]
      rw [e3]
      simp only [hidx, and_self, if_true]
      rw [List.getElem?_eq_none (by omega)]

theorem filterMap_range_getElem? (l : List α) :
    (List.range l.length).filterMap (fun i => l[i]?) = l := by
  induction l using List.reverseRecOn with
  | nil => rfl
  | append_singleton l a ih =>
    rw [List.length_append, List.length_singleton, List.range_succ, List.filterMap_append]
    have h1 : (List.range l.length).filterMap (fun i => (l ++ [a])[i]?)
        = (List.range l.length).filterMap (fun i => l[i]?) := by
      apply List.filterMap_congr
      intro i hi
      rw [List.mem_range] at hi
      exact List.getElem?_append_left hi
    rw [h1, ih]
    simp

/-- The abstraction function agrees with the representation relation. -/
theorem holds_toList {q : RingQueue α} {l : List α} (h : Holds q l) : q.toList = l := by
  obtain ⟨hc, hb, hh, hs, hle, hlive, hslot⟩ := h
  unfold toList
  rw [hs]
  have : (List.range l.length).filterMap (fun i => q.slot ((q.head + i) % q.capacity))
      = (List.range l.length).filterMap (fun i => l[i]?) := by
    apply List.filterMap_congr
    intro i hi
    rw [List.mem_range] at hi
    exact hslot i (by omega)
  rw [this, filterMap_range_getElem?]

end RingQueue

/-! ### RingQueue: order and size -/

namespace QueueOp

variable {α : Type}

/-- Running a valid sequence from a ring holding `l`: the values read at the pops are the oldest
elements in order, and the ring ends holding the rest. -/
theorem exec_holds (ops : List (QueueOp α)) :
    ∀ (q : RingQueue α) (l : List α), RingQueue.Holds q l → valid l.length ops = true →
      (exec q ops).2 = ((l ++ pushed ops).take (pops ops)).map some ∧
      RingQueue.Holds (exec q ops).1 ((l ++ pushed ops).drop (pops ops)) := by
  induction ops with
  | nil =>
    intro q l h _
    simpa [exec, pushed, pops] using h
  | cons op ops ih =>
    intro q l h hv
    cases op with
    | push v =>
      have hv2 : valid (l ++ [v]).length ops = true := by simpa [valid] using hv
      have := ih (q.push v) (l ++ [v]) (RingQueue.holds_push h v) hv2
      simpa [exec, pushed, pops] using this
    | pop =>
      cases l with
      | nil => simp [valid] at hv
      | cons x l =>
        have hv2 : valid l.length ops = true := by simpa [valid] using hv
        have := ih q.pop l (RingQueue.holds_pop h) hv2
        simp only [exec, pushed, pops, RingQueue.holds_front h]
        simpa using this

theorem valid_pops_le (ops : List (QueueOp α)) :
    ∀ n, valid n ops = true → pops ops ≤ n + (pushed ops).length := by
  induction ops with
  | nil => intro n _; simp [pops]
  | cons op ops ih =>
    intro n hv
    cases op with
    | push v =>
      have := ih (n + 1) (by simpa [valid] using hv)
      simp only [pops, pushed, List.length_cons]; omega
    | pop =>
      cases n with
      | zero => simp [valid] at hv
      | succ n =>
        have := ih n (by simpa [valid] using hv)
        simp only [pops, pushed]; omega

end QueueOp

open QueueOp in
/-- C1. RingQueue is first-in first-out: for every valid sequence of pushes and pops (pops only
on a non-empty queue) run from an empty queue of positive initial capacity `cap`, there are as
many `front()` reads as pops and the value read before the `k`-th pop is the `k`-th value that
was pushed, whatever wrapping or growing the sequence causes. -/
theorem ring_queue_fifo {α : Type} (cap : Nat) (hcap : 0 < cap) (ops : List (QueueOp α))
    (hv : valid 0 ops = true) :
    (exec (RingQueue.new cap) ops).2 = ((pushed ops).take (pops ops)).map some ∧
    (exec (RingQueue.new cap) ops).2.length = pops ops ∧
    ∀ k, k < pops ops → (exec (RingQueue.new cap) ops).2[k]? = some ((pushed ops)[k]?) := by
  have h := (exec_holds ops (RingQueue.new cap) [] (RingQueue.holds_new cap hcap) hv).1
  have hle := valid_pops_le ops 0 hv
  simp only [List.nil_append] at h
  refine ⟨h, ?_, ?_⟩
  · rw [h]; simp; omega
  · intro k hk
    rw [h, List.getElem?_map, List.getElem?_take_of_lt hk]
    have : k < (pushed ops).length := by omega
    simp [List.getElem?_eq_getElem this]

open QueueOp in
/-- The scenario of `test_pop` (capacity 100, push `0..99`, 50 pops): the reads are `0..49`. -/
theorem ring_queue_fifo_witness :
    0 < 100 ∧ valid 0 test_pop_ops = true ∧
    (exec (RingQueue.new 100) test_pop_ops).2
      = ((pushed test_pop_ops).take (pops test_pop_ops)).map some ∧
    (pushed test_pop_ops).take (pops test_pop_ops) = List.range 50 :=
  ⟨by decide, by decide, (ring_queue_fifo 100 (by decide) test_pop_ops (by decide)).1,
    by decide⟩

open QueueOp in
/-- C2. RingQueue size accounting: after every valid sequence of pushes and pops run from an
empty queue of positive initial capacity, `size()` is the number of pushes minus the number of
pops, the storage holds exactly that many live elements, and these are the pushed values that
were not popped, each once and in order. -/
theorem ring_queue_size {α : Type} (cap : Nat) (hcap : 0 < cap) (ops : List (QueueOp α))
    (hv : valid 0 ops = true) :
    pops ops ≤ (pushed ops).length ∧
    (exec (RingQueue.new cap) ops).1.size = (pushed ops).length - pops ops ∧
    (exec (RingQueue.new cap) ops).1.live = (exec (RingQueue.new cap) ops).1.size ∧
    (exec (RingQueue.new cap) ops).1.toList = (pushed ops).drop (pops ops) := by
  have h := (exec_holds ops (RingQueue.new cap) [] (RingQueue.holds_new cap hcap) hv).2
  have hle := valid_pops_le ops 0 hv
  simp only [List.nil_append] at h
  have hl := RingQueue.holds_toList h
  obtain ⟨_, _, _, hs, _, hlive, _⟩ := h
  refine ⟨by omega, ?_, ?_, hl⟩
  · rw [hs]; simp
  · rw [hlive, hs]

set_option maxRecDepth 100000 in
open QueueOp in
/-- The scenarios of `test_push` (default-constructed queue, 100 pushes) and `test_pop`
(capacity 100; 100 pushes, 50 pops, 50 pushes): size 100 and 100 live elements in both. -/
theorem ring_queue_size_witness :
    (0 < RingQueue.default_capacity ∧ valid 0 test_push_ops = true ∧
      (exec (RingQueue.new RingQueue.default_capacity) test_push_ops).1.size = 100 ∧
      (exec (RingQueue.new RingQueue.default_capacity) test_push_ops).1.live = 100) ∧
    (0 < 100 ∧ valid 0 test_pop_all = true ∧
      (exec (RingQueue.new 100) test_pop_all).1.size = 100 ∧
      (exec (RingQueue.new 100) test_pop_all).1.live = 100) := by
  have h1 := ring_queue_size RingQueue.default_capacity (by decide) test_push_ops (by decide)
  have h2 := ring_queue_size 100 (by decide) test_pop_all (by decide)
  have e1 : (pushed test_push_ops).length - pops test_push_ops = 100 := by decide
  have e2 : (pushed test_pop_all).length - pops test_pop_all = 100 := by decide
  refine ⟨⟨by decide, by decide, ?_, ?_⟩, ⟨by decide, by decide, ?_, ?_⟩⟩
  · rw [h1.2.1, e1]
  · rw [h1.2.2.1, h1.2.1, e1]
  · rw [h2.2.1, e2]
  · rw [h2.2.2.1, h2.2.1, e2]

/-! ### The pool context: the in-flight counter -/

namespace Impl

variable {H : Type}

theorem fetch_add_mod (n : Nat) : fetch_add (n % SIZE_MOD) = (n + 1) % SIZE_MOD := by
  unfold fetch_add SIZE_MOD; omega

theorem fetch_sub_mod (n : Nat) : fetch_sub ((n + 1) % SIZE_MOD) = n % SIZE_MOD := by
  unfold fetch_sub SIZE_MOD; omega

theorem push_size (q : RingQueue H) (v : H) : (q.push v).size = q.size + 1 := by
  unfold RingQueue.push
  split <;> simp [RingQueue.grow]

theorem insert_length (e : TimingTask H) (l : List (TimingTask H)) :
    (TimingTaskManager.insert e l).length = l.length + 1 := by
  induction l with
  | nil => rfl
  | cons x xs ih =>
    unfold TimingTaskManager.insert
    split
    · rfl
    · simp [ih]

theorem get_expired_task_some {m : TimingTaskManager H} {now : Nat}
    {res : H × TimingTaskManager H} (h : m.get_expired_task now = some res) :
    ∃ e rest, m.entries = e :: rest ∧ e.expired now = true ∧ res.1 = e.callback ∧
      res.2 = { m with entries := rest } := by
  unfold TimingTaskManager.get_expired_task at h
  split at h
  · cases h
  · next e rest he =>
    split at h
    · next hexp =>
      cases h
      exact ⟨e, rest, he, hexp, rfl, rfl⟩
    · cases h

/-- Replacing the `i`-th element changes a count by the difference of the two elements. -/
theorem countP_set_balance {β : Type} (f : β → Bool) :
    ∀ (l : List β) (i : Nat) (a b : β), l[i]? = some b →
      List.countP f (l.set i a) + (if f b = true then 1 else 0)
        = List.countP f l + (if f a = true then 1 else 0) := by
  intro l
  induction l with
  | nil => intro i a b h; simp at h
  | cons x xs ih =>
    intro i a b h
    cases i with
    | zero =>
      simp only [List.getElem?_cons_zero, Option.some.injEq] at h
      subst h
      simp only [List.set_cons_zero, List.countP_cons]
      omega
    | succ i =>
      simp only [List.getElem?_cons_succ] at h
      have := ih i a b h
      simp only [List.set_cons_succ, List.countP_cons]
      omega

theorem worker_step_balanced (p : Impl H) (i : Nat) (hb : p.count = p.in_flight % SIZE_MOD) :
    (p.worker_step i).count = (p.worker_step i).in_flight % SIZE_MOD := by
  unfold worker_step
  split
  · exact hb
  · exact hb
  · next hw =>
    split
    · next hcond =>
      split
      · have := countP_set_balance WorkerPc.is_running p.workers i .exited .waiting hw
        simp only [WorkerPc.is_running] at this
        simp only [in_flight, ready, pending_timers, executing] at hb ⊢
        rw [hb]; congr 1; simp at this; omega
      · next hnd =>
        split
        · exact hb
        · next task hf =>
          have hne : p.posted_tasks.size ≠ 0 := by
            rcases hcond with ⟨_, he⟩ | hd
            · simpa [RingQueue.empty] using he
            · exact absurd hd hnd
          have := countP_set_balance WorkerPc.is_running p.workers i (.running task) .waiting hw
          simp only [WorkerPc.is_running] at this
          simp only [in_flight, ready, pending_timers, executing, RingQueue.pop] at hb ⊢
          rw [hb]; congr 1; simp at this; omega
    · exact hb
  · next task hw =>
    have := countP_set_balance WorkerPc.is_running p.workers i .waiting (.running task) hw
    simp only [WorkerPc.is_running] at this
    simp only [in_flight, ready, pending_timers, executing] at hb ⊢
    simp at this
    have e : p.posted_tasks.size + p.timed_tasks.entries.length
        + List.countP WorkerPc.is_running p.workers
        = (p.posted_tasks.size + p.timed_tasks.entries.length
          + List.countP WorkerPc.is_running (p.workers.set i .waiting)) + 1 := by omega
    rw [hb, e, fetch_sub_mod]

theorem time_poller_iter_balanced (p p1 : Impl H) (now : Nat)
    (h : p.time_poller_iter now = some p1) (hb : p.count = p.in_flight % SIZE_MOD) :
    p1.count = p1.in_flight % SIZE_MOD := by
  unfold time_poller_iter at h
  split at h
  · next res hres =>
    obtain ⟨e, rest, he, _, _, h2⟩ := get_expired_task_some hres
    cases h
    simp only [post, in_flight, ready, pending_timers, executing, push_size, h2] at hb ⊢
    rw [he] at hb
    simp only [List.length_cons] at hb
    rw [hb, fetch_add_mod, fetch_sub_mod]
    congr 1; omega
  · cases h

theorem time_poller_step_balanced (p : Impl H) (j now : Nat)
    (hb : p.count = p.in_flight % SIZE_MOD) :
    (p.time_poller_step j now).count = (p.time_poller_step j now).in_flight % SIZE_MOD := by
  unfold time_poller_step
  split
  · exact hb
  · exact hb
  · split
    · split <;> exact hb
    · exact hb
  · split
    · next p1 h => exact time_poller_iter_balanced p p1 now h hb
    · exact hb

theorem step_balanced (p : Impl H) (s : Step H) (hs : ∀ id, s ≠ .clear id)
    (hb : p.count = p.in_flight % SIZE_MOD) :
    (p.step s).count = (p.step s).in_flight % SIZE_MOD := by
  cases s with
  | post h =>
    simp only [step, post, in_flight, ready, pending_timers, executing, push_size] at hb ⊢
    rw [hb, fetch_add_mod]; congr 1; omega
  | set_timeout now ms h =>
    simp only [step, set_timeout, TimingTaskManager.set_timeout, in_flight, ready,
      pending_timers, executing, insert_length] at hb ⊢
    rw [hb, fetch_add_mod]; congr 1; omega
  | clear id => exact absurd rfl (hs id)
  | run => exact hb
  | stop => exact hb
  | destroy => exact hb
  | thread t =>
    cases t with
    | worker i => exact worker_step_balanced p i hb
    | time_poller j now => exact time_poller_step_balanced p j now hb

theorem steps_balanced (tr : List (Step H)) :
    ∀ p : Impl H, (∀ s ∈ tr, ∀ id, s ≠ .clear id) → p.count = p.in_flight % SIZE_MOD →
      (p.steps tr).count = (p.steps tr).in_flight % SIZE_MOD := by
  induction tr with
  | nil => intro p _ hb; exact hb
  | cons s tr ih =>
    intro p hs hb
    have h1 := step_balanced p s (hs s (List.mem_cons_self _ _)) hb
    exact ih (p.step s) (fun s2 hs2 => hs s2 (List.mem_cons_of_mem _ hs2)) h1

end Impl

/-! ### The pool context: the ready queue -/

namespace Impl

variable {H : Type}

theorem dequeued_append (p : Impl H) (e : Event H) :
    (p.log ++ [e]).filterMap (fun e => match e with | .dequeue t => some t | _ => none)
      = p.dequeued ++ (match e with | .dequeue t => [t] | _ => []) := by
  rw [List.filterMap_append]
  cases e <;> rfl

theorem holds_nonempty {q : RingQueue H} {l : List H} (h : RingQueue.Holds q l)
    (he : q.empty = false) : ∃ x l1, l = x :: l1 := by
  cases l with
  | nil =>
    have := h.2.2.2.1
    simp [RingQueue.empty, this] at he
  | cons x l1 => exact ⟨x, l1, rfl⟩

theorem worker_step_fifo (p : Impl H) (i : Nat) (l : List H)
    (h : RingQueue.Holds p.posted_tasks l) :
    ∃ l1, RingQueue.Holds (p.worker_step i).posted_tasks l1 ∧
      (p.worker_step i).dequeued ++ l1 = p.dequeued ++ l := by
  unfold worker_step
  split
  · exact ⟨l, h, rfl⟩
  · exact ⟨l, h, rfl⟩
  · split
    · next hcond =>
      split
      · exact ⟨l, h, rfl⟩
      · next hnd =>
        split
        · exact ⟨l, h, rfl⟩
        · next task hf =>
          have he : p.posted_tasks.empty = false := by
            rcases hcond with ⟨_, he⟩ | hd
            · exact he
            · exact absurd hd hnd
          obtain ⟨x, l1, hl⟩ := holds_nonempty h he
          subst hl
          have hx := RingQueue.holds_front h
          rw [hf] at hx
          cases hx
          refine ⟨l1, RingQueue.holds_pop h, ?_⟩
          show (p.log ++ [Event.dequeue task]).filterMap _ ++ l1 = _
          rw [dequeued_append]
          simp
    · exact ⟨l, h, rfl⟩
  · next task hw =>
    refine ⟨l, h, ?_⟩
    show (p.log ++ [Event.invoke task]).filterMap _ ++ l = _
    rw [dequeued_append]
    simp

theorem time_poller_step_holds (p : Impl H) (j now : Nat) (l : List H)
    (h : RingQueue.Holds p.posted_tasks l) :
    ∃ l1, RingQueue.Holds (p.time_poller_step j now).posted_tasks l1 := by
  unfold time_poller_step
  split
  · exact ⟨l, h⟩
  · exact ⟨l, h⟩
  · split
    · split <;> exact ⟨l, h⟩
    · exact ⟨l, h⟩
  · split
    · next p1 hp1 =>
      unfold time_poller_iter at hp1
      split at hp1
      · next res _ =>
        cases hp1
        exact ⟨l ++ [res.1], RingQueue.holds_push h res.1⟩
      · cases hp1
    · exact ⟨l, h⟩

theorem step_holds (p : Impl H) (s : Step H) (l : List H)
    (h : RingQueue.Holds p.posted_tasks l) :
    ∃ l1, RingQueue.Holds (p.step s).posted_tasks l1 := by
  cases s with
  | post t => exact ⟨l ++ [t], RingQueue.holds_push h t⟩
  | set_timeout now ms t => exact ⟨l, h⟩
  | clear id => exact ⟨l, h⟩
  | run => exact ⟨l, h⟩
  | stop => exact ⟨l, h⟩
  | destroy => exact ⟨l, h⟩
  | thread t =>
    cases t with
    | worker i =>
      obtain ⟨l1, h1, _⟩ := worker_step_fifo p i l h
      exact ⟨l1, h1⟩
    | time_poller j now => exact time_poller_step_holds p j now l h

theorem steps_holds (tr : List (Step H)) :
    ∀ (p : Impl H) (l : List H), RingQueue.Holds p.posted_tasks l →
      ∃ l1, RingQueue.Holds (p.steps tr).posted_tasks l1 := by
  induction tr with
  | nil => intro p l h; exact ⟨l, h⟩
  | cons s tr ih =>
    intro p l h
    obtain ⟨l1, h1⟩ := step_holds p s l h
    exact ih (p.step s) l1 h1

theorem step_fifo (p : Impl H) (s : Step H) (hs : s.by_poller = false) (l : List H)
    (h : RingQueue.Holds p.posted_tasks l) :
    ∃ l1, RingQueue.Holds (p.step s).posted_tasks l1 ∧
      (p.step s).dequeued ++ l1 = p.dequeued ++ l ++ s.posted.toList := by
  cases s with
  | post t =>
    refine ⟨l ++ [t], RingQueue.holds_push h t, ?_⟩
    show (p.log ++ [Event.notify_one .posted_cv]).filterMap _ ++ _ = _
    rw [dequeued_append]
    simp [Step.posted]
  | set_timeout now ms t =>
    refine ⟨l, h, ?_⟩
    show (p.log ++ [Event.notify_one .timed_cv]).filterMap _ ++ _ = _
    rw [dequeued_append]
    simp [Step.posted]
  | clear id => exact ⟨l, h, by simp [Step.posted, step, clear, dequeued]⟩
  | run =>
    refine ⟨l, h, ?_⟩
    simp [Step.posted, step, run, dequeued, List.filterMap_append]
  | stop =>
    refine ⟨l, h, ?_⟩
    simp [Step.posted, step, stop, dequeued, List.filterMap_append]
  | destroy =>
    refine ⟨l, h, ?_⟩
    simp [Step.posted, step, destroy, dequeued, List.filterMap_append]
  | thread t =>
    cases t with
    | worker i =>
      obtain ⟨l1, h1, h2⟩ := worker_step_fifo p i l h
      exact ⟨l1, h1, by simpa [Step.posted] using h2⟩
    | time_poller j now => simp [Step.by_poller] at hs

/-- The four things a step of a worker can do. -/
theorem worker_step_cases (q : Impl H) (i : Nat) :
    q.worker_step i = q ∨
    (q.workers[i]? = some .waiting ∧ q.state = .PendingDestroy ∧
      q.worker_step i = { q with workers := q.workers.set i .exited }) ∨
    (q.workers[i]? = some .waiting ∧ q.state = .Running ∧ q.posted_tasks.empty = false ∧
      ∃ task, q.posted_tasks.front = some task ∧
        q.worker_step i = { q with posted_tasks := q.posted_tasks.pop
                                   workers := q.workers.set i (.running task)
                                   log := q.log ++ [.dequeue task] }) ∨
    (∃ task, q.workers[i]? = some (.running task) ∧
      q.worker_step i = { q with count := fetch_sub q.count
                                 workers := q.workers.set i .waiting
                                 log := q.log ++ [.invoke task] }) := by
  unfold worker_step
  split
  · exact Or.inl rfl
  · exact Or.inl rfl
  · next hw =>
    split
    · next hcond =>
      split
      · next hd => exact Or.inr (Or.inl ⟨hw, hd, rfl⟩)
      · next hnd =>
        have hr : q.state = .Running ∧ q.posted_tasks.empty = false := by
          rcases hcond with hc | hd
          · exact hc
          · exact absurd hd hnd
        split
        · exact Or.inl rfl
        · next task hf => exact Or.inr (Or.inr (Or.inl ⟨hw, hr.1, hr.2, task, hf, rfl⟩))
    · exact Or.inl rfl
  · next task hw => exact Or.inr (Or.inr (Or.inr ⟨task, hw, rfl⟩))

theorem steps_fifo (tr : List (Step H)) :
    ∀ (p : Impl H) (l : List H), (∀ s ∈ tr, s.by_poller = false) →
      RingQueue.Holds p.posted_tasks l →
      ∃ l1, RingQueue.Holds (p.steps tr).posted_tasks l1 ∧
        (p.steps tr).dequeued ++ l1 = p.dequeued ++ l ++ tr.filterMap Step.posted := by
  induction tr with
  | nil => intro p l _ h; exact ⟨l, h, by simp [steps]⟩
  | cons s tr ih =>
    intro p l hs h
    obtain ⟨l1, h1, e1⟩ := step_fifo p s (hs s (List.mem_cons_self _ _)) l h
    obtain ⟨l2, h2, e2⟩ := ih (p.step s) l1 (fun s2 hs2 => hs s2 (List.mem_cons_of_mem _ hs2)) h1
    refine ⟨l2, h2, ?_⟩
    show ((p.step s).steps tr).dequeued ++ l2 = _
    rw [e2, e1]
    cases hp : s.posted <;> simp [List.filterMap_cons, hp]

end Impl

/-- C3. In-flight counter invariant: after every sequence of `post`, `set_timeout`, worker and
timer-thread steps from a fresh pool, the counter equals (tasks in the ready queue) + (pending
timers) + (tasks being executed), modulo `2^64` as the counter is a `size_t` and hence exactly
whenever that total fits in a `size_t`; the ready queue's `size()` is the number of tasks it
holds.  `post` and `set_timeout` add one, a finished task subtracts one, and a worker taking a
task or the timer thread moving an expired timer to the ready queue leaves the counter as it
was. -/
theorem inflight_counter_invariant {H : Type} (n : Nat) (tr : List (Impl.Step H))
    (htr : ∀ s ∈ tr, s.carries_task = true) :
    (Impl.steps (Impl.create n) tr).count
      = ((Impl.steps (Impl.create n) tr).ready + (Impl.steps (Impl.create n) tr).pending_timers
          + (Impl.steps (Impl.create n) tr).executing) % SIZE_MOD ∧
    ((Impl.steps (Impl.create n) tr).ready + (Impl.steps (Impl.create n) tr).pending_timers
          + (Impl.steps (Impl.create n) tr).executing < SIZE_MOD →
      (Impl.steps (Impl.create n) tr).count
        = (Impl.steps (Impl.create n) tr).ready + (Impl.steps (Impl.create n) tr).pending_timers
          + (Impl.steps (Impl.create n) tr).executing) ∧
    (Impl.steps (Impl.create n) tr).ready
      = (Impl.steps (Impl.create n) tr).posted_tasks.toList.length ∧
    (∀ (q : Impl H) h, q.count + 1 < SIZE_MOD → (q.post h).count = q.count + 1) ∧
    (∀ (q : Impl H) now ms h, q.count + 1 < SIZE_MOD →
      (q.set_timeout now ms h).2.count = q.count + 1) ∧
    (∀ (q : Impl H) i task, q.workers[i]? = some (.running task) → 0 < q.count →
      q.count < SIZE_MOD → (q.worker_step i).count + 1 = q.count) ∧
    (∀ (q : Impl H) i, q.workers[i]? = some .waiting → (q.worker_step i).count = q.count) ∧
    (∀ (q : Impl H) j now, q.count < SIZE_MOD → (q.time_poller_step j now).count = q.count) := by
  have hnc : ∀ s ∈ tr, ∀ id, s ≠ Impl.Step.clear id := by
    intro s hs id e
    have := htr s hs
    rw [e] at this
    simp [Impl.Step.carries_task] at this
  have h0 : (Impl.create n : Impl H).count = (Impl.create n : Impl H).in_flight % SIZE_MOD := by
    simp [Impl.create, Impl.run, Impl.init, Impl.in_flight, Impl.ready, Impl.pending_timers,
      Impl.executing, RingQueue.new, TimingTaskManager.init, List.countP_replicate,
      WorkerPc.is_running]
  have hb := Impl.steps_balanced tr (Impl.create n) hnc h0
  have hq0 : RingQueue.Holds (Impl.create n : Impl H).posted_tasks [] :=
    RingQueue.holds_new 64 (by decide)
  obtain ⟨l, hl⟩ := Impl.steps_holds tr (Impl.create n) [] hq0
  refine ⟨hb, ?_, ?_, ?_, ?_, ?_, ?_, ?_⟩
  · intro hlt
    rw [hb]
    exact Nat.mod_eq_of_lt hlt
  · rw [RingQueue.holds_toList hl]
    exact hl.2.2.2.1
  · intro q h hq
    exact Nat.mod_eq_of_lt hq
  · intro q now ms h hq
    exact Nat.mod_eq_of_lt hq
  · intro q i task hw hpos hlt
    have : (q.worker_step i).count = Impl.fetch_sub q.count := by
      unfold Impl.worker_step
      rw [hw]
    rw [this]
    unfold Impl.fetch_sub SIZE_MOD at *
    omega
  · intro q i hw
    unfold Impl.worker_step
    rw [hw]
    simp only
    split
    · split
      · rfl
      · split <;> rfl
    · rfl
  · intro q j now hlt
    unfold Impl.time_poller_step
    split
    · rfl
    · rfl
    · split
      · split <;> rfl
      · rfl
    · split
      · next p1 hp1 =>
        unfold Impl.time_poller_iter at hp1
        split at hp1
        · cases hp1
          show Impl.fetch_sub (Impl.fetch_add q.count) = q.count
          unfold Impl.fetch_sub Impl.fetch_add SIZE_MOD at *
          omega
        · cases hp1
      · rfl

/-- A pool with one worker: a task is posted and taken by the worker, a timer is set, expires
and is moved to the ready queue, and the worker finishes its task; the counter is then 1, for
the one task in the ready queue. -/
theorem inflight_counter_invariant_witness :
    (∀ s ∈ ([.post 7, .thread (.worker 0), .set_timeout 0 5 8, .thread (.time_poller 0 10),
        .thread (.time_poller 0 10), .thread (.worker 0)] : List (Impl.Step Nat)),
      s.carries_task = true) ∧
    (Impl.steps (Impl.create 1) ([.post 7, .thread (.worker 0), .set_timeout 0 5 8,
        .thread (.time_poller 0 10), .thread (.time_poller 0 10), .thread (.worker 0)]
        : List (Impl.Step Nat))).count = 1 ∧
    (Impl.steps (Impl.create 1) ([.post 7, .thread (.worker 0), .set_timeout 0 5 8,
        .thread (.time_poller 0 10), .thread (.time_poller 0 10), .thread (.worker 0)]
        : List (Impl.Step Nat))).posted_tasks.toList = [8] := by
  have hall : ∀ s ∈ ([.post 7, .thread (.worker 0), .set_timeout 0 5 8,
      .thread (.time_poller 0 10), .thread (.time_poller 0 10), .thread (.worker 0)]
      : List (Impl.Step Nat)), s.carries_task = true := by decide
  have h := (inflight_counter_invariant 1 _ hall).1
  refine ⟨hall, ?_, by decide⟩
  rw [h]
  decide

/-! ### The pool context: `wait` -/

namespace Impl

variable {H : Type}

theorem wait_eq_some_iff (obs : Nat → Impl H) (fuel : Nat) :
    ∀ s k, wait obs fuel s = some k ↔
      s ≤ k ∧ k < s + fuel ∧ (obs k).count = 0 ∧ ∀ j, s ≤ j → j < k → (obs j).count ≠ 0 := by
  induction fuel with
  | zero =>
    intro s k
    simp only [wait, Nat.add_zero]
    constructor
    · intro h; cases h
    · rintro ⟨h1, h2, _⟩; omega
  | succ fuel ih =>
    intro s k
    unfold wait
    by_cases hz : (obs s).count = 0
    · simp only [hz, if_true, Option.some.injEq]
      constructor
      · intro e
        subst e
        exact ⟨Nat.le_refl _, by omega, hz, fun j h1 h2 => by omega⟩
      · rintro ⟨h1, _, _, h4⟩
        by_contra hne
        exact h4 s (Nat.le_refl _) (by omega) hz
    · simp only [hz, if_false]
      rw [ih (s + 1) k]
      constructor
      · rintro ⟨h1, h2, h3, h4⟩
        refine ⟨by omega, by omega, h3, ?_⟩
        intro j hj1 hj2
        by_cases hjs : j = s
        · subst hjs; exact hz
        · exact h4 j (by omega) hj2
      · rintro ⟨h1, h2, h3, h4⟩
        have hne : s ≠ k := by
          intro e; subst e; exact hz h3
        exact ⟨by omega, by omega, h3, fun j hj1 hj2 => h4 j (by omega) hj2⟩

end Impl

/-- C4. `wait()` returns only when the in-flight counter is zero: with `obs j` the pool at the
`j`-th check of the loop, `wait` returns at check `k` exactly when that check reads
`count == 0` and every earlier check read a non-zero value (so it keeps looping while the value
read is non-zero, and it does return at the first zero read). -/
theorem wait_returns_at_zero {H : Type} (obs : Nat → Impl H) (fuel k : Nat) :
    Impl.wait obs fuel 0 = some k ↔
      k < fuel ∧ (obs k).count = 0 ∧ ∀ j, j < k → (obs j).count ≠ 0 := by
  rw [Impl.wait_eq_some_iff]
  constructor
  · rintro ⟨_, h2, h3, h4⟩
    exact ⟨by omega, h3, fun j hj => h4 j (Nat.zero_le _) hj⟩
  · rintro ⟨h2, h3, h4⟩
    exact ⟨Nat.zero_le _, by omega, h3, fun j _ hj => h4 j hj⟩

/-! ### The pool context: `clear` -/

/-- C5. `clear(id)` with an id that is not in the timer set leaves the timer set as it is but
still does `count.fetch_sub(1)`: on a fresh pool (`count == 0`, no timers) `clear(42)` wraps the
counter to `2^64 - 1`, after which `wait()` never returns; with one task posted and not yet run,
`clear(42)` brings the counter to `0` and `wait()` returns at its first check although the task
is still in the ready queue. -/
theorem clear_unknown_id_decrements :
    (Impl.create 1 : Impl Nat).timed_tasks.has_id 42 = false ∧
    (Impl.create 1 : Impl Nat).count = 0 ∧
    ((Impl.create 1 : Impl Nat).clear 42).count = 2 ^ 64 - 1 ∧
    (Impl.create 1 : Impl Nat).clear 42 ≠ Impl.create 1 ∧
    (∀ fuel, Impl.wait (fun _ => (Impl.create 1 : Impl Nat).clear 42) fuel 0 = none) ∧
    ((Impl.create 1 : Impl Nat).post 7).count = 1 ∧
    (((Impl.create 1 : Impl Nat).post 7).clear 42).count = 0 ∧
    (((Impl.create 1 : Impl Nat).post 7).clear 42).posted_tasks.toList = [7] ∧
    Impl.wait (fun _ => ((Impl.create 1 : Impl Nat).post 7).clear 42) 1 0 = some 0 := by
  set_option maxRecDepth 100000 in
  have hc : ((Impl.create 1 : Impl Nat).clear 42).count = 2 ^ 64 - 1 := by decide
  refine ⟨by decide, by decide, hc, ?_, ?_, by decide, by decide, by decide, by decide⟩
  · intro e
    have h2 := congrArg Impl.count e
    rw [hc] at h2
    exact absurd h2 (by decide)
  · intro fuel
    cases h : Impl.wait (fun _ => (Impl.create 1 : Impl Nat).clear 42) fuel 0 with
    | none => rfl
    | some k =>
      have h3 := ((Impl.wait_eq_some_iff _ fuel 0 k).1 h).2.2.1
      rw [hc] at h3
      exact absurd h3 (by decide)

/-- For every pool and every id that is not in the timer set, `clear(id)` leaves the timer
entries untouched and replaces the counter by `count - 1` modulo `2^64`, which differs from
`count`. -/
theorem clear_unknown_id_effect {H : Type} (p : Impl H) (id : TimerID)
    (hid : p.timed_tasks.has_id id = false) :
    (p.clear id).timed_tasks = p.timed_tasks ∧
    (p.clear id).count = (p.count + (SIZE_MOD - 1)) % SIZE_MOD ∧
    (p.clear id).count ≠ p.count := by
  refine ⟨?_, rfl, ?_⟩
  · simp only [Impl.clear, TimingTaskManager.cancel]
    have : p.timed_tasks.entries.filter (fun e => e.id != id) = p.timed_tasks.entries := by
      rw [List.filter_eq_self]
      intro e he
      simp only [TimingTaskManager.has_id, List.any_eq_false] at hid
      have := hid e he
      simpa using this
    rw [this]
  · show (p.count + (SIZE_MOD - 1)) % SIZE_MOD ≠ p.count
    unfold SIZE_MOD at *
    omega

/-! ### The pool context: threads, `join` and the state -/

namespace Impl

variable {H : Type}

theorem worker_step_state (p : Impl H) (i : Nat) : (p.worker_step i).state = p.state := by
  unfold worker_step
  split
  · rfl
  · rfl
  · split
    · split
      · rfl
      · split <;> rfl
    · rfl
  · rfl

theorem time_poller_iter_state (p p1 : Impl H) (now : Nat) (h : p.time_poller_iter now = some p1) :
    p1.state = p.state := by
  unfold time_poller_iter at h
  split at h
  · cases h; rfl
  · cases h

theorem time_poller_step_state (p : Impl H) (j now : Nat) :
    (p.time_poller_step j now).state = p.state := by
  unfold time_poller_step
  split
  · rfl
  · rfl
  · split
    · split <;> rfl
    · rfl
  · split
    · next p1 h => exact time_poller_iter_state p p1 now h
    · rfl

theorem thread_step_state (p : Impl H) (t : ThreadStep) : (p.thread_step t).state = p.state := by
  cases t with
  | worker i => exact worker_step_state p i
  | time_poller j now => exact time_poller_step_state p j now

theorem thread_steps_state (sched : List ThreadStep) :
    ∀ p : Impl H, (sched.foldl thread_step p).state = p.state := by
  induction sched with
  | nil => intro p; rfl
  | cons t ts ih =>
    intro p
    rw [List.foldl_cons, ih, thread_step_state]

theorem worker_step_log (p : Impl H) (i : Nat) : ∃ r, (p.worker_step i).log = p.log ++ r := by
  unfold worker_step
  split
  · exact ⟨[], by simp⟩
  · exact ⟨[], by simp⟩
  · split
    · split
      · exact ⟨[], by simp⟩
      · split
        · exact ⟨[], by simp⟩
        · exact ⟨_, rfl⟩
    · exact ⟨[], by simp⟩
  · exact ⟨_, rfl⟩

theorem time_poller_step_log (p : Impl H) (j now : Nat) :
    ∃ r, (p.time_poller_step j now).log = p.log ++ r := by
  unfold time_poller_step
  split
  · exact ⟨[], by simp⟩
  · exact ⟨[], by simp⟩
  · split
    · split <;> exact ⟨[], by simp⟩
    · exact ⟨[], by simp⟩
  · split
    · next p1 h =>
      unfold time_poller_iter at h
      split at h
      · cases h; exact ⟨_, rfl⟩
      · cases h
    · exact ⟨[], by simp⟩

theorem thread_steps_log (sched : List ThreadStep) :
    ∀ p : Impl H, ∃ r, (sched.foldl thread_step p).log = p.log ++ r := by
  induction sched with
  | nil => intro p; exact ⟨[], by simp⟩
  | cons t ts ih =>
    intro p
    rw [List.foldl_cons]
    obtain ⟨r1, h1⟩ := ih (p.thread_step t)
    have h2 : ∃ r, (p.thread_step t).log = p.log ++ r := by
      cases t with
      | worker i => exact worker_step_log p i
      | time_poller j now => exact time_poller_step_log p j now
    obtain ⟨r2, h2⟩ := h2
    exact ⟨r2 ++ r1, by rw [h1, h2, List.append_assoc]⟩

theorem join_eq_some (obs : Nat → Impl H) (fuel : Nat) (sched : List ThreadStep) (p1 : Impl H)
    (h : join obs fuel sched = some p1) :
    ∃ k, wait obs fuel 0 = some k ∧ p1 = sched.foldl thread_step (destroy (obs k)) ∧
      p1.all_exited = true := by
  unfold join at h
  cases hw : wait obs fuel 0 with
  | none => rw [hw] at h; cases h
  | some k =>
    rw [hw] at h
    simp only at h
    split at h
    · next hall =>
      cases h
      exact ⟨k, rfl, rfl, hall⟩
    · cases h

end Impl

/-- C6. `join()` moves the pool to `PendingDestroy` only after the counter was read as zero:
`join` does not get past `wait()` while no check reads zero, and whenever `join` returns, `wait`
returned at a check `k` reading `count == 0` (all earlier checks non-zero), `destroy()` then set
the state to `PendingDestroy` and notified both condition variables after everything logged
before, and on return every thread has exited and the state is `PendingDestroy`. -/
theorem join_after_zero {H : Type} (obs : Nat → Impl H) (fuel : Nat)
    (sched : List Impl.ThreadStep) :
    (Impl.wait obs fuel 0 = none → Impl.join obs fuel sched = none) ∧
    ∀ p1, Impl.join obs fuel sched = some p1 →
      ∃ k, Impl.wait obs fuel 0 = some k ∧ (obs k).count = 0 ∧
        (∀ j, j < k → (obs j).count ≠ 0) ∧
        (Impl.destroy (obs k)).state = .PendingDestroy ∧
        (∃ r, p1.log = (obs k).log ++ [.notify_all .posted_cv, .notify_all .timed_cv] ++ r) ∧
        p1.all_exited = true ∧
        p1.state = .PendingDestroy := by
  constructor
  · intro h
    simp [Impl.join, h]
  · intro p1 h
    obtain ⟨k, hk, hp1, hall⟩ := Impl.join_eq_some obs fuel sched p1 h
    have hz := (Impl.wait_eq_some_iff obs fuel 0 k).1 hk
    refine ⟨k, hk, hz.2.2.1, fun j hj => hz.2.2.2 j (Nat.zero_le _) hj, rfl, ?_, hall, ?_⟩
    · obtain ⟨r, hr⟩ := Impl.thread_steps_log sched (Impl.destroy (obs k))
      exact ⟨r, by rw [hp1, hr]; rfl⟩
    · rw [hp1, Impl.thread_steps_state]; rfl

/-- An idle pool with two workers: `join()` returns once its threads have seen `PendingDestroy`,
and the state is then `PendingDestroy`. -/
theorem join_after_zero_witness :
    Impl.join (fun _ => (Impl.create 2 : Impl Nat)) 1
        [.worker 0, .worker 1, .time_poller 0 0]
      = some ([Impl.ThreadStep.worker 0, .worker 1, .time_poller 0 0].foldl Impl.thread_step
          (Impl.destroy (Impl.create 2 : Impl Nat))) ∧
    ∃ k, Impl.wait (fun _ => (Impl.create 2 : Impl Nat)) 1 0 = some k ∧
      (Impl.create 2 : Impl Nat).count = 0 ∧
      ([Impl.ThreadStep.worker 0, .worker 1, .time_poller 0 0].foldl Impl.thread_step
          (Impl.destroy (Impl.create 2 : Impl Nat))).state = .PendingDestroy := by
  have hj : Impl.join (fun _ => (Impl.create 2 : Impl Nat)) 1
        [.worker 0, .worker 1, .time_poller 0 0]
      = some ([Impl.ThreadStep.worker 0, .worker 1, .time_poller 0 0].foldl Impl.thread_step
          (Impl.destroy (Impl.create 2 : Impl Nat))) := by decide
  refine ⟨hj, ?_⟩
  obtain ⟨k, hk, hz, _, _, _, _, hs⟩ :=
    (join_after_zero (fun _ => (Impl.create 2 : Impl Nat)) 1
      [.worker 0, .worker 1, .time_poller 0 0]).2 _ hj
  exact ⟨k, hk, hz, hs⟩

/-- C7, as stated, fails: `stop()` on a running pool takes the state from `Running` back to
`Stop`, and `run()` takes a pool out of `PendingDestroy`; neither is a step of
`Stop -> Running -> PendingDestroy`. -/
theorem stop_leaves_running :
    (Impl.create 1 : Impl Nat).state = .Running ∧
    (Impl.create 1 : Impl Nat).stop.state = .Stop ∧
    State.follows (Impl.create 1 : Impl Nat).state (Impl.create 1 : Impl Nat).stop.state
      = false ∧
    (Impl.create 1 : Impl Nat).destroy.state = .PendingDestroy ∧
    (Impl.create 1 : Impl Nat).destroy.run.state = .Running ∧
    State.follows (Impl.create 1 : Impl Nat).destroy.state
      (Impl.create 1 : Impl Nat).destroy.run.state = false := by
  decide

/-- C7 (amended). The state starts as `Stop` and the constructor makes the step
`Stop -> Running`; after that `run()` sets `Running`, `stop()` sets `Stop` and `join()` (through
`destroy()`) sets `PendingDestroy`, each whatever the state was before; `post`, `set_timeout`,
`clear` and the steps of the pool's threads never change the state. -/
theorem state_is_set_unconditionally {H : Type} :
    (Impl.init : Impl H).state = .Stop ∧
    (∀ n, (Impl.create n : Impl H).state = .Running) ∧
    (∀ p : Impl H, p.run.state = .Running) ∧
    (∀ p : Impl H, p.stop.state = .Stop) ∧
    (∀ p : Impl H, p.destroy.state = .PendingDestroy) ∧
    (∀ (obs : Nat → Impl H) fuel sched p1,
      Impl.join obs fuel sched = some p1 → p1.state = .PendingDestroy) ∧
    (∀ (p : Impl H) h, (p.post h).state = p.state) ∧
    (∀ (p : Impl H) now ms h, (p.set_timeout now ms h).2.state = p.state) ∧
    (∀ (p : Impl H) id, (p.clear id).state = p.state) ∧
    (∀ (p : Impl H) t, (p.thread_step t).state = p.state) := by
  refine ⟨rfl, fun _ => rfl, fun _ => rfl, fun _ => rfl, fun _ => rfl, ?_, fun _ _ => rfl,
    fun _ _ _ _ => rfl, fun _ _ => rfl, Impl.thread_step_state⟩
  intro obs fuel sched p1 h
  obtain ⟨k, _, hp1, _⟩ := Impl.join_eq_some obs fuel sched p1 h
  rw [hp1, Impl.thread_steps_state]; rfl

/-- A pool stopped and idle: `join()` returns with the state `PendingDestroy`, a step
`Stop -> PendingDestroy`. -/
theorem state_is_set_unconditionally_witness :
    (Impl.create 1 : Impl Nat).stop.state = .Stop ∧
    Impl.join (fun _ => (Impl.create 1 : Impl Nat).stop) 1 [.worker 0, .time_poller 0 0]
      = some ([Impl.ThreadStep.worker 0, .time_poller 0 0].foldl Impl.thread_step
          (Impl.destroy (Impl.create 1 : Impl Nat).stop)) ∧
    ([Impl.ThreadStep.worker 0, .time_poller 0 0].foldl Impl.thread_step
          (Impl.destroy (Impl.create 1 : Impl Nat).stop)).state = .PendingDestroy := by
  have hj : Impl.join (fun _ => (Impl.create 1 : Impl Nat).stop) 1
        [.worker 0, .time_poller 0 0]
      = some ([Impl.ThreadStep.worker 0, .time_poller 0 0].foldl Impl.thread_step
          (Impl.destroy (Impl.create 1 : Impl Nat).stop)) := by decide
  exact ⟨by decide, hj, state_is_set_unconditionally.2.2.2.2.2.1 _ 1 _ _ hj⟩

/-! ### The pool context: the timer thread -/

/-- C8. The timer thread posts an expired callback instead of running it: when
`get_expired_task()` yields `cb` (leaving the timer set `tm`), one pass of the timer thread's
inner loop removes that timer (the timer set becomes `tm`, the former set without its first
entry, whose callback is `cb`), pushes `cb` at the back of the ready queue, invokes nothing,
and leaves the counter at the value it had; a timer thread standing in the inner loop makes
exactly this step. -/
theorem poller_posts_expired {H : Type} (p : Impl H) (now : Nat) (cb : H)
    (tm : TimingTaskManager H) (hexp : p.timed_tasks.get_expired_task now = some (cb, tm))
    (hc : p.count < SIZE_MOD) :
    ∃ p1, p.time_poller_iter now = some p1 ∧
      (∀ j, p.pollers[j]? = some .polling → p.time_poller_step j now = p1) ∧
      p1.timed_tasks = tm ∧
      (∃ e, p.timed_tasks.entries = e :: tm.entries ∧ e.callback = cb ∧ e.expired now = true) ∧
      p1.posted_tasks = p.posted_tasks.push cb ∧
      (∀ l, RingQueue.Holds p.posted_tasks l → p1.posted_tasks.toList = l ++ [cb]) ∧
      p1.invoked = p.invoked ∧
      p1.dequeued = p.dequeued ∧
      p1.log = p.log ++ [.notify_one .posted_cv] ∧
      p1.count = p.count := by
  obtain ⟨e, rest, he, hx, h1, h2⟩ := Impl.get_expired_task_some hexp
  simp only at h1 h2
  refine ⟨{ Impl.post { p with timed_tasks := tm } cb with
      count := Impl.fetch_sub (Impl.post { p with timed_tasks := tm } cb).count },
    by simp only [Impl.time_poller_iter, hexp], ?_, rfl, ?_, rfl, ?_, ?_, ?_, rfl, ?_⟩
  · intro j hj
    simp only [Impl.time_poller_step, hj, Impl.time_poller_iter, hexp]
  · exact ⟨e, by rw [he, h2], h1.symm, hx⟩
  · intro l hl
    exact RingQueue.holds_toList (RingQueue.holds_push hl cb)
  · simp [Impl.invoked, Impl.post, List.filterMap_append]
  · simp [Impl.dequeued, Impl.post, List.filterMap_append]
  · show Impl.fetch_sub (Impl.fetch_add p.count) = p.count
    unfold Impl.fetch_sub Impl.fetch_add SIZE_MOD at *
    omega

/-- A running pool whose only timer (deadline 5, callback 8) has expired at time 10, with task 7
already in the ready queue: the pass leaves no timer, the ready queue `[7, 8]`, count 2. -/
theorem poller_posts_expired_witness :
    ((Impl.create 1 : Impl Nat).post 7 |>.set_timeout 0 5 8).2.timed_tasks.get_expired_task 10
      = some (8, { entries := [], next_id := 1 }) ∧
    ((Impl.create 1 : Impl Nat).post 7 |>.set_timeout 0 5 8).2.count = 2 ∧
    ∃ p1, ((Impl.create 1 : Impl Nat).post 7 |>.set_timeout 0 5 8).2.time_poller_iter 10
        = some p1 ∧
      p1.timed_tasks.entries = [] ∧ p1.posted_tasks.toList = [7, 8] ∧ p1.invoked = [] ∧
      p1.count = 2 := by
  have hexp : ((Impl.create 1 : Impl Nat).post 7 |>.set_timeout 0 5 8).2.timed_tasks.get_expired_task
      10 = some (8, { entries := [], next_id := 1 }) := by decide
  have hcnt : ((Impl.create 1 : Impl Nat).post 7 |>.set_timeout 0 5 8).2.count = 2 := by decide
  obtain ⟨p1, h1, _, h3, _, _, h6, h7, _, _, h10⟩ :=
    poller_posts_expired _ 10 8 _ hexp (by rw [hcnt]; decide)
  have hq : RingQueue.Holds ((Impl.create 1 : Impl Nat).post 7 |>.set_timeout 0 5 8).2.posted_tasks
      [7] := RingQueue.holds_push (RingQueue.holds_new 64 (by decide)) 7
  refine ⟨hexp, hcnt, p1, h1, ?_, h6 [7] hq, ?_, ?_⟩
  · rw [h3]
  · rw [h7]; decide
  · rw [h10, hcnt]

/-! ### The pool context: dequeuing order -/

/-- C9. Pool tasks are dequeued in FIFO order: after every sequence of operations without
timer-thread steps from a fresh pool, the tasks taken by the workers, in the order they were
taken, followed by the tasks still in the ready queue, are the posted tasks in posting order.
A worker step takes a task off the ready queue only when the worker was waiting, the state is
`Running` and the queue is non-empty, and it then removes the front task; a waiting worker that sees
`PendingDestroy` exits and removes nothing. -/
theorem pool_dequeues_fifo {H : Type} (n : Nat) (tr : List (Impl.Step H))
    (htr : ∀ s ∈ tr, s.by_poller = false) :
    (Impl.steps (Impl.create n) tr).dequeued ++ (Impl.steps (Impl.create n) tr).posted_tasks.toList
      = tr.filterMap Impl.Step.posted ∧
    (∀ (q : Impl H) i,
      (q.worker_step i).posted_tasks ≠ q.posted_tasks ∨ (q.worker_step i).dequeued ≠ q.dequeued →
      q.workers[i]? = some .waiting ∧ q.state = .Running ∧ q.posted_tasks.empty = false ∧
      ∃ task, q.posted_tasks.front = some task ∧
        (q.worker_step i).posted_tasks = q.posted_tasks.pop ∧
        (q.worker_step i).dequeued = q.dequeued ++ [task] ∧
        (q.worker_step i).workers = q.workers.set i (.running task)) ∧
    (∀ (q : Impl H) i, q.workers[i]? = some .waiting → q.state = .PendingDestroy →
      (q.worker_step i).workers = q.workers.set i .exited ∧
      (q.worker_step i).posted_tasks = q.posted_tasks ∧
      (q.worker_step i).dequeued = q.dequeued) := by
  refine ⟨?_, ?_, ?_⟩
  · have hq0 : RingQueue.Holds (Impl.create n : Impl H).posted_tasks [] :=
      RingQueue.holds_new 64 (by decide)
    obtain ⟨l, hl, e⟩ := Impl.steps_fifo tr (Impl.create n) [] htr hq0
    rw [RingQueue.holds_toList hl, e]
    simp [Impl.dequeued, Impl.create, Impl.run, Impl.init]
  · intro q i hne
    rcases Impl.worker_step_cases q i with h | ⟨_, _, h⟩ | ⟨hw, hr, he, task, hf, h⟩ | ⟨t, _, h⟩
    · rw [h] at hne
      rcases hne with hne | hne <;> exact absurd rfl hne
    · rw [h] at hne
      rcases hne with hne | hne <;> exact absurd rfl hne
    · refine ⟨hw, hr, he, task, hf, ?_, ?_, ?_⟩
      · rw [h]
      · rw [h]
        show (q.log ++ [Event.dequeue task]).filterMap _ = _
        rw [Impl.dequeued_append]
      · rw [h]
    · rw [h] at hne
      rcases hne with hne | hne
      · exact absurd rfl hne
      · exfalso
        apply hne
        show (q.log ++ [Event.invoke t]).filterMap _ = _
        rw [Impl.dequeued_append]
        simp
  · intro q i hw hd
    rcases Impl.worker_step_cases q i with h | ⟨_, _, h⟩ | ⟨_, hr, _⟩ | ⟨task, hw2, _⟩
    · exfalso
      have h2 : (q.worker_step i).workers = q.workers.set i .exited := by
        simp [Impl.worker_step, hw, hd]
      rw [h] at h2
      have hi : i < q.workers.length := by
        rcases List.getElem?_eq_some.1 hw with ⟨hi, _⟩
        exact hi
      have h3 := congrArg (fun l => l[i]?) h2
      simp only [hw, List.getElem?_set_self hi] at h3
      cases h3
    · rw [h]; exact ⟨rfl, rfl, rfl⟩
    · rw [hr] at hd; cases hd
    · rw [hw] at hw2; cases hw2

/-- A pool with two workers: 1, 2, 3 are posted, both workers take a task, the pool is stopped
and restarted and a third task is taken; the tasks were taken in the order 1, 2, 3. -/
theorem pool_dequeues_fifo_witness :
    (∀ s ∈ ([.post 1, .post 2, .thread (.worker 1), .post 3, .thread (.worker 0), .stop,
        .thread (.worker 0), .run, .thread (.worker 0), .thread (.worker 0)]
        : List (Impl.Step Nat)), s.by_poller = false) ∧
    (Impl.steps (Impl.create 2) ([.post 1, .post 2, .thread (.worker 1), .post 3,
        .thread (.worker 0), .stop, .thread (.worker 0), .run, .thread (.worker 0),
        .thread (.worker 0)] : List (Impl.Step Nat))).dequeued = [1, 2, 3] ∧
    (Impl.steps (Impl.create 2) ([.post 1, .post 2, .thread (.worker 1), .post 3,
        .thread (.worker 0), .stop, .thread (.worker 0), .run, .thread (.worker 0),
        .thread (.worker 0)] : List (Impl.Step Nat))).posted_tasks.toList = [] := by
  have hall : ∀ s ∈ ([.post 1, .post 2, .thread (.worker 1), .post 3, .thread (.worker 0),
      .stop, .thread (.worker 0), .run, .thread (.worker 0), .thread (.worker 0)]
      : List (Impl.Step Nat)), s.by_poller = false := by decide
  have h := (pool_dequeues_fifo 2 _ hall).1
  have hq : (Impl.steps (Impl.create 2) ([.post 1, .post 2, .thread (.worker 1), .post 3,
      .thread (.worker 0), .stop, .thread (.worker 0), .run, .thread (.worker 0),
      .thread (.worker 0)] : List (Impl.Step Nat))).posted_tasks.toList = [] := by decide
  refine ⟨hall, ?_, hq⟩
  rw [hq, List.append_nil] at h
  rw [h]
  decide

/-! ### Socket: `close` -/

/-- C10, as stated, fails: a socket whose `open(v6, Udp)` failed holds `-1` with `ip_ == v6` and
`transport_ == Udp`, and `close()` leaves it exactly so. -/
theorem close_keeps_fields_of_invalid :
    ((net.Socket.mk false 3 .v4 .Tcp).open_ .v6 .Udp (-1)).1 = net.Socket.mk false (-1) .v6 .Udp ∧
    (net.Socket.mk false (-1) .v6 .Udp).close.1 = net.Socket.mk false (-1) .v6 .Udp ∧
    (net.Socket.mk false (-1) .v6 .Udp).close.1.ip_ ≠ .v4 ∧
    (net.Socket.mk false (-1) .v6 .Udp).close.1.transport_ ≠ .Tcp := by
  decide

/-- C10 (amended). For every socket, `close()` twice gives the same socket and the same
descriptor releases as `close()` once; at most one release is made; after `close()` the handle
is `-1`.  A socket that held an open handle `h` releases exactly `h` and ends with
`is_related_ == false`, `ip_ == v4`, `transport_ == Tcp`; a socket that already held `-1` is
left as it was and nothing is released. -/
theorem close_idempotent (s : net.Socket) :
    s.close_twice = s.close ∧
    s.close.2.length ≤ 1 ∧
    s.close.1.handle_ = -1 ∧
    (s.handle_ ≠ -1 →
      s.close = (net.Socket.mk false (-1) .v4 .Tcp, [.close_socket s.handle_])) ∧
    (s.handle_ = -1 → s.close = (s, [])) := by
  by_cases h : s.handle_ = -1
  · simp [net.Socket.close_twice, net.Socket.close, h]
  · simp [net.Socket.close_twice, net.Socket.close, net.Socket.reset, h]

/-- An open socket with descriptor 5: closed once, released once. -/
theorem close_idempotent_witness :
    (net.Socket.mk true 5 .v6 .Udp).close
      = (net.Socket.mk false (-1) .v4 .Tcp, [.close_socket 5]) :=
  (close_idempotent (net.Socket.mk true 5 .v6 .Udp)).2.2.2.1 (by decide)

/-! ### Socket: `close` and `cancel` -/

/-- C11, as stated, fails: `close()` on a socket holding descriptor 5 makes the single call
`close_socket(5)`; no cancel is handed to the I/O service. -/
theorem close_issues_no_cancel :
    (net.Socket.mk true 5 .v4 .Tcp).close.2 = [.close_socket 5] ∧
    net.Effect.service_cancel 5 ∉ (net.Socket.mk true 5 .v4 .Tcp).close.2 := by
  decide

/-- C11 (amended). For every socket holding an open handle `h`, `close()` releases the
descriptor `h` with one `close_socket(h)` call and hands no cancel to the I/O service; a cancel
of the requests on `h` is issued only by `cancel()`, and comes before the release when the
caller calls `cancel()` and then `close()`. -/
theorem close_releases_without_cancel (s : net.Socket) (h : s.handle_ ≠ -1) :
    s.close.2 = [.close_socket s.handle_] ∧
    (∀ k, net.Effect.service_cancel k ∉ s.close.2) ∧
    s.cancel.2 ++ s.cancel.1.close.2 = [.service_cancel s.handle_, .close_socket s.handle_] := by
  have hc : s.close = (s.reset, [.close_socket s.handle_]) := by
    simp [net.Socket.close, h]
  have hk : s.cancel = (s, [.service_cancel s.handle_]) := by
    have h2 : (-1 : Int) ≠ s.handle_ := fun e => h e.symm
    simp [net.Socket.cancel, h2]
  refine ⟨by rw [hc], ?_, ?_⟩
  · intro k
    rw [hc]
    simp
  · rw [hk]
    simp only [hc]
    rfl

/-- A socket holding descriptor 5: `close()` releases 5 and cancels nothing. -/
theorem close_releases_without_cancel_witness :
    (net.Socket.mk true 5 .v6 .Udp).close.2 = [.close_socket 5] :=
  (close_releases_without_cancel (net.Socket.mk true 5 .v6 .Udp) (by decide)).1

/-- C15. `cancel()` is issued only for an open handle: a socket holding `-1` submits nothing to
the I/O service and stays as it is; a socket holding an open handle `h` submits exactly one
cancel request, whose handle field is `h`, and stays as it is. -/
theorem cancel_only_when_open (s : net.Socket) :
    (s.handle_ = -1 → s.cancel = (s, [])) ∧
    (s.handle_ ≠ -1 → s.cancel = (s, [.service_cancel s.handle_])) ∧
    s.cancel.1 = s ∧
    s.cancel.2.length ≤ 1 := by
  by_cases h : s.handle_ = -1
  · simp [net.Socket.cancel, h]
  · have h2 : (-1 : Int) ≠ s.handle_ := fun e => h e.symm
    simp [net.Socket.cancel, h, h2]

/-- A socket without a handle submits nothing; a socket holding 7 submits one cancel for 7. -/
theorem cancel_only_when_open_witness :
    (net.Socket.mk false (-1) .v4 .Tcp).cancel = (net.Socket.mk false (-1) .v4 .Tcp, []) ∧
    (net.Socket.mk true 7 .v4 .Udp).cancel
      = (net.Socket.mk true 7 .v4 .Udp, [.service_cancel 7]) :=
  ⟨(cancel_only_when_open _).1 (by decide), (cancel_only_when_open _).2.1 (by decide)⟩

/-! ### Socket: moving -/

namespace net.Store

theorem set_same (st : Store) (a : Nat) (s : Socket) : (st.set a s) a = s := by
  simp [set]

theorem set_other (st : Store) (a c : Nat) (s : Socket) (h : c ≠ a) : (st.set a s) c = st c := by
  simp [set, h]

theorem move_assign_dst (st : Store) (a b : Nat) (hab : a ≠ b) :
    (st.move_assign a b).1 a = st b := by
  have hba : b ≠ a := fun e => hab e.symm
  simp [move_assign, set, hab, hba]

theorem move_assign_src (st : Store) (a b : Nat) :
    (st.move_assign a b).1 b = Socket.mk false (-1) .v4 .Tcp := by
  simp [move_assign, set, Socket.reset]

theorem move_assign_other (st : Store) (a b c : Nat) (hca : c ≠ a) (hcb : c ≠ b) :
    (st.move_assign a b).1 c = st c := by
  simp [move_assign, set, hca, hcb]

theorem move_construct_dst (st : Store) (a b : Nat) (hab : a ≠ b) :
    (st.move_construct a b).1 a = st b := by
  simp [move_construct, set, hab]

theorem move_construct_src (st : Store) (a b : Nat) :
    (st.move_construct a b).1 b = Socket.mk false (-1) .v4 .Tcp := by
  simp [move_construct, set, Socket.reset]

theorem move_construct_other (st : Store) (a b c : Nat) (hca : c ≠ a) (hcb : c ≠ b) :
    (st.move_construct a b).1 c = st c := by
  simp [move_construct, set, hca, hcb]

end net.Store

/-- C12. Moving a socket transfers ownership of its handle: for distinct objects `a` and `b`,
after move-construction of `a` from `b` and after `a = move(b)`, `a` holds exactly `b`'s former
handle, ip version, transport and `is_related_` flag, `b` holds `-1`, and every other object is
untouched; so an open handle that only `b` held (apart from the object being overwritten) is
afterwards held by `a` and by no other wrapper. -/
theorem move_transfers_handle (st : net.Store) (a b : Nat) (hab : a ≠ b) :
    (st.move_construct a b).1 a = st b ∧
    ((st.move_construct a b).1 b).handle_ = -1 ∧
    (st.move_assign a b).1 a = st b ∧
    ((st.move_assign a b).1 b).handle_ = -1 ∧
    (∀ c, c ≠ a → c ≠ b → (st.move_construct a b).1 c = st c ∧ (st.move_assign a b).1 c = st c) ∧
    ((st b).handle_ ≠ -1 → (∀ c, c ≠ a → c ≠ b → (st c).handle_ ≠ (st b).handle_) →
      ∀ c, (((st.move_construct a b).1 c).handle_ = (st b).handle_ ↔ c = a) ∧
           (((st.move_assign a b).1 c).handle_ = (st b).handle_ ↔ c = a)) := by
  refine ⟨net.Store.move_construct_dst st a b hab, ?_, net.Store.move_assign_dst st a b hab, ?_,
    ?_, ?_⟩
  · rw [net.Store.move_construct_src]
  · rw [net.Store.move_assign_src]
  · intro c hca hcb
    exact ⟨net.Store.move_construct_other st a b c hca hcb,
      net.Store.move_assign_other st a b c hca hcb⟩
  · intro hopen huniq c
    by_cases hca : c = a
    · subst hca
      rw [net.Store.move_construct_dst st c b hab, net.Store.move_assign_dst st c b hab]
      simp
    · by_cases hcb : c = b
      · subst hcb
        rw [net.Store.move_construct_src, net.Store.move_assign_src]
        simp only [hca, iff_false]
        exact ⟨fun e => hopen e.symm, fun e => hopen e.symm⟩
      · rw [net.Store.move_construct_other st a b c hca hcb,
          net.Store.move_assign_other st a b c hca hcb]
        simp only [hca, iff_false]
        exact ⟨huniq c hca hcb, huniq c hca hcb⟩

/-- Object 1 holds descriptor 5 (v6, Udp, related), object 0 is empty: after `a = move(b)` with
`a` at 0 and `b` at 1, object 0 holds all of it and object 1 holds `-1`. -/
theorem move_transfers_handle_witness :
    (net.Store.move_assign (net.Store.of_list
        [net.Socket.mk false (-1) .v4 .Tcp, net.Socket.mk true 5 .v6 .Udp]) 0 1).1 0
      = net.Socket.mk true 5 .v6 .Udp ∧
    ((net.Store.move_assign (net.Store.of_list
        [net.Socket.mk false (-1) .v4 .Tcp, net.Socket.mk true 5 .v6 .Udp]) 0 1).1 1).handle_
      = -1 := by
  have h := move_transfers_handle (net.Store.of_list
    [net.Socket.mk false (-1) .v4 .Tcp, net.Socket.mk true 5 .v6 .Udp]) 0 1 (by decide)
  exact ⟨by rw [h.2.2.1]; decide, h.2.2.2.1⟩

/-- C16. Socket move-assignment never closes a descriptor: `a = move(b)` makes no call at all,
so when `a` held an open handle `h`, `h` is overwritten without being released; when `a` was the
only wrapper holding `h`, no wrapper holds `h` afterwards.  For the self-assignment
`a = move(a)` the socket ends with the handle `-1` (and the other members reset), again without
any call, so its former descriptor has not been closed. -/
theorem move_assign_never_closes (st : net.Store) (a b : Nat) (h : Int)
    (ha : (st a).handle_ = h) (hopen : h ≠ -1) :
    (st.move_assign a b).2 = [] ∧
    net.Effect.close_socket h ∉ (st.move_assign a b).2 ∧
    (a ≠ b → ((st.move_assign a b).1 a).handle_ = (st b).handle_) ∧
    (a ≠ b → (∀ c, c ≠ a → (st c).handle_ ≠ h) →
      ∀ c, ((st.move_assign a b).1 c).handle_ ≠ h) ∧
    (st.move_assign a a).1 a = net.Socket.mk false (-1) .v4 .Tcp ∧
    ((st.move_assign a a).1 a).handle_ = -1 ∧
    (st.move_assign a a).2 = [] := by
  refine ⟨rfl, by simp [net.Store.move_assign], ?_, ?_, net.Store.move_assign_src st a a, ?_, rfl⟩
  · intro hab
    rw [net.Store.move_assign_dst st a b hab]
  · intro hab huniq c
    by_cases hca : c = a
    · subst hca
      rw [net.Store.move_assign_dst st c b hab]
      exact huniq b (fun e => hab e.symm)
    · by_cases hcb : c = b
      · subst hcb
        rw [net.Store.move_assign_src]
        exact fun e => hopen e.symm
      · rw [net.Store.move_assign_other st a b c hca hcb]
        exact huniq c hca
  · rw [net.Store.move_assign_src]

/-- Object 0 holds descriptor 5 and object 1 holds descriptor 6: after `a = move(b)` nothing was
closed and object 0 holds 6; after `a = move(a)` object 0 holds `-1` and nothing was closed. -/
theorem move_assign_never_closes_witness :
    (net.Store.move_assign (net.Store.of_list
        [net.Socket.mk true 5 .v4 .Tcp, net.Socket.mk false 6 .v6 .Udp]) 0 1).2 = [] ∧
    ((net.Store.move_assign (net.Store.of_list
        [net.Socket.mk true 5 .v4 .Tcp, net.Socket.mk false 6 .v6 .Udp]) 0 1).1 0).handle_ = 6 ∧
    ((net.Store.move_assign (net.Store.of_list
        [net.Socket.mk true 5 .v4 .Tcp, net.Socket.mk false 6 .v6 .Udp]) 0 0).1 0).handle_
      = -1 := by
  have h := move_assign_never_closes (net.Store.of_list
    [net.Socket.mk true 5 .v4 .Tcp, net.Socket.mk false 6 .v6 .Udp]) 0 1 5 (by decide)
    (by decide)
  exact ⟨h.1, by rw [h.2.2.1 (by decide)]; decide, h.2.2.2.2.2.1⟩

/-! ### The completion hook of the callback overloads -/

namespace net

end net

namespace net

theorem u16_roundtrip (big_endian : Bool) (b0 b1 : Nat) (h0 : b0 < 256) (h1 : b1 < 256) :
    store_u16 big_endian (htons big_endian (ntohs big_endian (load_u16 big_endian b0 b1)))
      = (b0, b1) := by
  cases big_endian
  · simp only [store_u16, htons, ntohs, load_u16, Bool.false_eq_true, if_false]
    have e1 : (b0 + b1 * 256) % 256 * 256 + (b0 + b1 * 256) / 256 % 256 = b0 * 256 + b1 := by
      omega
    rw [e1]
    have e2 : (b0 * 256 + b1) % 256 * 256 + (b0 * 256 + b1) / 256 % 256 = b1 * 256 + b0 := by
      omega
    rw [e2]
    refine Prod.ext ?_ ?_ <;> simp only <;> omega
  · simp only [store_u16, htons, ntohs, load_u16, if_true]
    have e1 : (b0 * 256 + b1) % 65536 % 65536 = b0 * 256 + b1 := by omega
    rw [e1]
    refine Prod.ext ?_ ?_ <;> simp only <;> omega

theorem set_getD_self (l : Bytes) : ∀ i, i < l.length → l.set i (l.getD i 0) = l := by
  induction l with
  | nil => intro i h; simp at h
  | cons x xs ih =>
    intro i h
    cases i with
    | zero => rfl
    | succ i =>
      simp only [List.set_cons_succ, List.getD_cons_succ]
      rw [ih i (by simpa using h)]

theorem memcpy_getD (dst src : Bytes) (n i : Nat) (hi : i < n) (hn : n ≤ src.length) :
    (memcpy dst src n).getD i 0 = src.getD i 0 := by
  unfold memcpy
  rw [List.getD_append _ _ _ _ (by rw [List.length_take]; omega)]
  rw [List.getD_eq_getElem?_getD, List.getD_eq_getElem?_getD, List.getElem?_take_of_lt hi]

theorem memcpy_take (dst src : Bytes) (n : Nat) (hn : n ≤ src.length) :
    (memcpy dst src n).take n = src.take n := by
  unfold memcpy
  rw [List.take_append_of_le_length (by rw [List.length_take]; omega), List.take_take]
  simp

theorem memcpy_length_ge (dst src : Bytes) (n : Nat) (hn : n ≤ src.length) :
    n ≤ (memcpy dst src n).length := by
  unfold memcpy
  rw [List.length_append, List.length_take]
  omega

theorem sa_family_memcpy (big_endian : Bool) (dst sa : Bytes) (n : Nat) (h2 : 2 ≤ n)
    (hn : n ≤ sa.length) :
    sa_family big_endian (memcpy dst sa n) = sa_family big_endian sa := by
  unfold sa_family
  rw [memcpy_getD _ _ _ 0 (by omega) hn, memcpy_getD _ _ _ 1 (by omega) hn]

theorem sin_port_memcpy (big_endian : Bool) (dst sa : Bytes) (n : Nat) (h4 : 4 ≤ n)
    (hn : n ≤ sa.length) :
    sin_port big_endian (memcpy dst sa n) = sin_port big_endian sa := by
  unfold sin_port
  rw [memcpy_getD _ _ _ 2 (by omega) hn, memcpy_getD _ _ _ 3 (by omega) hn]

/-- Writing back the port that was read leaves the socket address as it is. -/
theorem set_sin_port_roundtrip (big_endian : Bool) (dst sa : Bytes) (n : Nat) (hn4 : 4 ≤ n)
    (hn : n ≤ sa.length) (hb : ∀ x ∈ sa, x < 256) :
    set_sin_port big_endian (memcpy dst sa n)
        (htons big_endian (ntohs big_endian (sin_port big_endian sa)))
      = memcpy dst sa n := by
  have hlt : ∀ i, i < sa.length → sa.getD i 0 < 256 := by
    intro i hi
    rw [List.getD_eq_getElem?_getD, List.getElem?_eq_getElem hi]
    exact hb _ (List.getElem_mem _)
  have hr := u16_roundtrip big_endian (sa.getD 2 0) (sa.getD 3 0) (hlt 2 (by omega))
    (hlt 3 (by omega))
  have hlen := memcpy_length_ge dst sa n hn
  unfold set_sin_port sin_port
  rw [hr]
  simp only
  have e2 : sa.getD 2 0 = (memcpy dst sa n).getD 2 0 :=
    (memcpy_getD dst sa n 2 (by omega) hn).symm
  have e3 : sa.getD 3 0 = (memcpy dst sa n).getD 3 0 :=
    (memcpy_getD dst sa n 3 (by omega) hn).symm
  rw [e2, set_getD_self _ 2 (by omega), e3, set_getD_self _ 3 (by omega)]

theorem receive_from_endpoint_addr (big_endian : Bool) (ntop : Nat → Bytes → String)
    (dflt : IpAddress) (sa : Bytes) (hlen : SIZEOF_SOCKADDR_IN6 ≤ sa.length)
    (hb : ∀ x ∈ sa, x < 256) :
    (receive_from_endpoint big_endian ntop dflt sa).address_.addr_in_
      = memcpy dflt.addr_in_ sa
          (if sa_family big_endian sa = AF_INET then SIZEOF_SOCKADDR_IN
            else SIZEOF_SOCKADDR_IN6) := by
  have h28 : 28 ≤ sa.length := hlen
  have hrt : ∀ n, 4 ≤ n → n ≤ sa.length →
      set_sin_port big_endian (memcpy dflt.addr_in_ sa n)
        (htons big_endian (ntohs big_endian (sin_port big_endian sa)))
      = memcpy dflt.addr_in_ sa n :=
    fun n h4 hn => set_sin_port_roundtrip big_endian dflt.addr_in_ sa n h4 hn hb
  unfold receive_from_endpoint EndPoint.create make_address_sockaddr
  by_cases hf : sa_family big_endian sa = AF_INET
  · simp only [hf, if_true, IpAddress.is_v4, decide_True]
    exact hrt SIZEOF_SOCKADDR_IN (by decide) (by unfold SIZEOF_SOCKADDR_IN; omega)
  · simp only [hf, if_false, IpAddress.is_v4, set_sin6_port]
    have : decide (Ip.v6 = Ip.v4) = false := by decide
    simp only [this, Bool.false_eq_true, if_false]
    exact hrt SIZEOF_SOCKADDR_IN6 (by decide) (by unfold SIZEOF_SOCKADDR_IN6; omega)

end net

/-- C14. `receive_from` reports the datagram's source endpoint faithfully: for the socket
address `sa` the service stored in the request (the `sockaddr_in6`-sized storage, on a host of
either endianness), the endpoint `EndPoint(make_address(&sa), ntohs(sa.sin_port))` has
`port() == ntohs(p)` for the port field `p` of `sa`, is `v4` exactly when `sa`'s family is
`AF_INET`, has address length 16 for `AF_INET` and 28 otherwise, and the first `addr_len` bytes
of its stored socket address are those of `sa`: writing `htons(ntohs(p))` back leaves the port
bytes as they were. -/
theorem receive_from_reports_source (big_endian : Bool) (ntop : Nat → net.Bytes → String)
    (dflt : net.IpAddress) (sa : net.Bytes) (hlen : net.SIZEOF_SOCKADDR_IN6 ≤ sa.length)
    (hb : ∀ x ∈ sa, x < 256) :
    (net.receive_from_endpoint big_endian ntop dflt sa).port_
      = net.ntohs big_endian (net.sin_port big_endian sa) ∧
    ((net.receive_from_endpoint big_endian ntop dflt sa).address_.level_ = .v4 ↔
      net.sa_family big_endian sa = net.AF_INET) ∧
    (net.receive_from_endpoint big_endian ntop dflt sa).address_.addr_len big_endian
      = (if net.sa_family big_endian sa = net.AF_INET then 16 else 28) ∧
    (net.receive_from_endpoint big_endian ntop dflt sa).address_.addr_in_.take
        ((net.receive_from_endpoint big_endian ntop dflt sa).address_.addr_len big_endian)
      = sa.take ((net.receive_from_endpoint big_endian ntop dflt sa).address_.addr_len
          big_endian) ∧
    net.sin_port big_endian (net.receive_from_endpoint big_endian ntop dflt sa).address_.addr_in_
      = net.sin_port big_endian sa := by
  have h28 : 28 ≤ sa.length := hlen
  have haddr := net.receive_from_endpoint_addr big_endian ntop dflt sa hlen hb
  have hn : (if net.sa_family big_endian sa = net.AF_INET then net.SIZEOF_SOCKADDR_IN
      else net.SIZEOF_SOCKADDR_IN6) ≤ sa.length := by
    split
    · unfold net.SIZEOF_SOCKADDR_IN; omega
    · unfold net.SIZEOF_SOCKADDR_IN6; omega
  have hn4 : 4 ≤ (if net.sa_family big_endian sa = net.AF_INET then net.SIZEOF_SOCKADDR_IN
      else net.SIZEOF_SOCKADDR_IN6) := by
    split <;> decide
  have hfam : net.sa_family big_endian
      (net.receive_from_endpoint big_endian ntop dflt sa).address_.addr_in_
      = net.sa_family big_endian sa := by
    rw [haddr]
    exact net.sa_family_memcpy big_endian _ sa _ (by omega) hn
  have hal : (net.receive_from_endpoint big_endian ntop dflt sa).address_.addr_len big_endian
      = (if net.sa_family big_endian sa = net.AF_INET then net.SIZEOF_SOCKADDR_IN
          else net.SIZEOF_SOCKADDR_IN6) := by
    unfold net.IpAddress.addr_len
    rw [hfam]
  refine ⟨rfl, ?_, ?_, ?_, ?_⟩
  · unfold net.receive_from_endpoint net.EndPoint.create net.make_address_sockaddr
    by_cases hf : net.sa_family big_endian sa = net.AF_INET
    · simp [hf, net.IpAddress.is_v4]
    · simp [hf, net.IpAddress.is_v4]
  · rw [hal]; rfl
  · rw [hal, haddr]
    exact net.memcpy_take _ _ _ hn
  · rw [haddr]
    exact net.sin_port_memcpy big_endian _ sa _ hn4 hn

/-- The datagram source `127.0.0.1:8080` on a little-endian host: port 8080, `v4`, and the 16
bytes of the `sockaddr_in` stored unchanged. -/
theorem receive_from_reports_source_witness :
    net.SIZEOF_SOCKADDR_IN6 ≤ net.sample_sockaddr_in.length ∧
    (net.receive_from_endpoint false (fun _ _ => "127.0.0.1") net.sample_default_address
        net.sample_sockaddr_in).port_ = 8080 ∧
    (net.receive_from_endpoint false (fun _ _ => "127.0.0.1") net.sample_default_address
        net.sample_sockaddr_in).address_.addr_in_.take 16
      = [2, 0, 31, 144, 127, 0, 0, 1, 0, 0, 0, 0, 0, 0, 0, 0] := by
  have h := receive_from_reports_source false (fun _ _ => "127.0.0.1")
    net.sample_default_address net.sample_sockaddr_in (by decide) (by decide)
  refine ⟨by decide, ?_, ?_⟩
  · rw [h.1]; decide
  · have h3 := h.2.2.1
    have h4 := h.2.2.2.1
    rw [h3] at h4
    have hf : net.sa_family false net.sample_sockaddr_in = net.AF_INET := by decide
    rw [if_pos hf] at h4
    rw [h4]
    decide

/-! ### Addresses: `make_address` from text -/

namespace net

theorem memcpy_getElem? (dst src : Bytes) (n i : Nat) (hi : i < n) (hn : n ≤ src.length) :
    (memcpy dst src n)[i]? = src[i]? := by
  unfold memcpy
  rw [List.getElem?_append_left (by rw [List.length_take]; omega),
    List.getElem?_take_of_lt hi]

theorem drop_take_memcpy (dst src : Bytes) (n off len : Nat) (h : off + len ≤ n)
    (hn : n ≤ src.length) :
    ((memcpy dst src n).drop off).take len = (src.drop off).take len := by
  apply List.ext_getElem?
  intro i
  rw [List.getElem?_take, List.getElem?_take]
  split
  · rw [List.getElem?_drop, List.getElem?_drop, memcpy_getElem? _ _ _ _ (by omega) hn]
  · rfl

theorem zeroed_length (big_endian : Bool) (af size : Nat) :
    (zeroed_sockaddr big_endian af size).length = size := by
  simp [zeroed_sockaddr]

theorem pton_store_length (sa : Bytes) (off len : Nat) (ret : Int) (parsed : Bytes)
    (h : off + len ≤ sa.length) : (pton_store sa off len ret parsed).length = sa.length := by
  unfold pton_store
  split
  · simp only [List.length_append, List.length_take, List.length_drop, List.length_replicate]
    omega
  · rfl

theorem pton_store_getD (sa : Bytes) (off len : Nat) (ret : Int) (parsed : Bytes) (i : Nat)
    (hi : i < off) (h : off ≤ sa.length) :
    (pton_store sa off len ret parsed).getD i 0 = sa.getD i 0 := by
  unfold pton_store
  split
  · rw [List.append_assoc, List.getD_append _ _ _ _ (by rw [List.length_take]; omega)]
    rw [List.getD_eq_getElem?_getD, List.getD_eq_getElem?_getD, List.getElem?_take_of_lt hi]
  · rfl

theorem sa_family_zeroed (big_endian : Bool) :
    sa_family big_endian (zeroed_sockaddr big_endian AF_INET SIZEOF_SOCKADDR_IN) = AF_INET ∧
    sa_family big_endian (zeroed_sockaddr big_endian AF_INET6 SIZEOF_SOCKADDR_IN6)
      = AF_INET6 := by
  cases big_endian <;> decide

theorem zeroed_address_bytes (big_endian : Bool) :
    ((zeroed_sockaddr big_endian AF_INET SIZEOF_SOCKADDR_IN).drop 4).take 4
      = List.replicate 4 0 ∧
    ((zeroed_sockaddr big_endian AF_INET6 SIZEOF_SOCKADDR_IN6).drop 8).take 16
      = List.replicate 16 0 := by
  cases big_endian <;> decide

/-- The family field and, when `inet_pton` returned 0, the address field of the socket address
built by `make_address`. -/
theorem built_sockaddr (big_endian : Bool) (dst : Bytes) (af size off len : Nat) (ret : Int)
    (parsed : Bytes) (h2 : 2 ≤ off) (hsz : off + len ≤ size) :
    sa_family big_endian
        (memcpy dst (pton_store (zeroed_sockaddr big_endian af size) off len ret parsed) size)
      = sa_family big_endian (zeroed_sockaddr big_endian af size) ∧
    (ret = 0 →
      ((memcpy dst (pton_store (zeroed_sockaddr big_endian af size) off len ret parsed)
          size).drop off).take len
        = ((zeroed_sockaddr big_endian af size).drop off).take len) := by
  have hz := zeroed_length big_endian af size
  have hl := pton_store_length (zeroed_sockaddr big_endian af size) off len ret parsed
    (by omega)
  constructor
  · rw [sa_family_memcpy big_endian _ _ size (by omega) (by omega)]
    unfold sa_family
    rw [pton_store_getD _ _ _ _ _ 0 (by omega) (by omega),
      pton_store_getD _ _ _ _ _ 1 (by omega) (by omega)]
  · intro hret
    rw [drop_take_memcpy _ _ size off len hsz (by omega)]
    have : pton_store (zeroed_sockaddr big_endian af size) off len ret parsed
        = zeroed_sockaddr big_endian af size := by
      simp [pton_store, hret]
    rw [this]

/-- When `inet_pton` returned 1, the address field of the socket address built by
`make_address` holds the parsed address, and the rest is the zero-initialised structure. -/
theorem built_sockaddr_parsed (big_endian : Bool) (dst : Bytes) (af size off len : Nat)
    (parsed : Bytes) (hsz : off + len ≤ size) :
    ((memcpy dst (pton_store (zeroed_sockaddr big_endian af size) off len 1 parsed)
        size).drop off).take len
      = (parsed ++ List.replicate len 0).take len ∧
    (memcpy dst (pton_store (zeroed_sockaddr big_endian af size) off len 1 parsed) size).take size
      = (zeroed_sockaddr big_endian af size).take off
          ++ (parsed ++ List.replicate len 0).take len
          ++ (zeroed_sockaddr big_endian af size).drop (off + len) := by
  have hz := zeroed_length big_endian af size
  have hl := pton_store_length (zeroed_sockaddr big_endian af size) off len 1 parsed
    (by omega)
  have hp : pton_store (zeroed_sockaddr big_endian af size) off len 1 parsed
      = (zeroed_sockaddr big_endian af size).take off
          ++ (parsed ++ List.replicate len 0).take len
          ++ (zeroed_sockaddr big_endian af size).drop (off + len) := by
    simp [pton_store]
  have hoff : ((zeroed_sockaddr big_endian af size).take off).length = off := by
    rw [List.length_take]; omega
  have hlen : ((parsed ++ List.replicate len 0).take len).length = len := by
    rw [List.length_take, List.length_append, List.length_replicate]; omega
  constructor
  · rw [drop_take_memcpy _ _ size off len hsz (by omega), hp, List.append_assoc,
      List.drop_left' hoff, List.take_left' hlen]
  · rw [memcpy_take _ _ size (by omega), List.take_of_length_le (by omega), hp]

end net

/-- C18. `make_address(string)` picks the family by the presence of a dot and reports an error
only for a `-1` from `inet_pton`: a string containing `'.'` is parsed with `AF_INET` and the
result tagged `v4` with family `AF_INET`, any other string is parsed with `AF_INET6` and tagged
`v6` with family `AF_INET6`; `ec` is assigned (`SYSTEM_ERROR_CODE`) and the default-constructed
address returned exactly when `inet_pton` returns `-1`; when it returns `0`, `ec` is left as it
was, the result's ip text is the input string and its address bytes are all zero; when it
returns `1`, `ec` is left as it was, the ip text is the input string, the address bytes are the
address `inet_pton` parsed (4 bytes at offset 4 of the `sockaddr_in`, 16 bytes at offset 8 of
the `sockaddr_in6`) and all other bytes of the structure but the family are zero. -/
theorem make_address_by_dot (big_endian : Bool) (pton : Nat → String → Int × net.Bytes)
    (errno : net.ErrorCode) (dflt : net.IpAddress) (str : String) (ec : net.ErrorCode)
    (herr : errno ≠ 0) :
    (str.toList.contains '.' = true →
      (net.make_address big_endian pton errno dflt str ec).2
        = (if (pton net.AF_INET str).1 = -1 then errno else ec) ∧
      (ec = 0 → ((net.make_address big_endian pton errno dflt str ec).2 ≠ 0 ↔
        (pton net.AF_INET str).1 = -1)) ∧
      ((pton net.AF_INET str).1 = -1 →
        (net.make_address big_endian pton errno dflt str ec).1 = dflt) ∧
      ((pton net.AF_INET str).1 ≠ -1 →
        (net.make_address big_endian pton errno dflt str ec).1.level_ = .v4 ∧
        (net.make_address big_endian pton errno dflt str ec).1.ip_ = str ∧
        net.sa_family big_endian (net.make_address big_endian pton errno dflt str ec).1.addr_in_
          = net.AF_INET) ∧
      ((pton net.AF_INET str).1 = 0 →
        (net.make_address big_endian pton errno dflt str ec).2 = ec ∧
        (net.make_address big_endian pton errno dflt str ec).1.ip_ = str ∧
        ((net.make_address big_endian pton errno dflt str ec).1.addr_in_.drop 4).take 4
          = List.replicate 4 0) ∧
      ((pton net.AF_INET str).1 = 1 →
        (net.make_address big_endian pton errno dflt str ec).2 = ec ∧
        (net.make_address big_endian pton errno dflt str ec).1.ip_ = str ∧
        ((net.make_address big_endian pton errno dflt str ec).1.addr_in_.drop 4).take 4
          = ((pton net.AF_INET str).2 ++ List.replicate 4 0).take 4 ∧
        ((pton net.AF_INET str).2.length = 4 →
          ((net.make_address big_endian pton errno dflt str ec).1.addr_in_.drop 4).take 4
            = (pton net.AF_INET str).2) ∧
        (net.make_address big_endian pton errno dflt str ec).1.addr_in_.take 16
          = (net.zeroed_sockaddr big_endian net.AF_INET 16).take 4
              ++ ((pton net.AF_INET str).2 ++ List.replicate 4 0).take 4
              ++ List.replicate 8 0)) ∧
    (str.toList.contains '.' = false →
      (net.make_address big_endian pton errno dflt str ec).2
        = (if (pton net.AF_INET6 str).1 = -1 then errno else ec) ∧
      (ec = 0 → ((net.make_address big_endian pton errno dflt str ec).2 ≠ 0 ↔
        (pton net.AF_INET6 str).1 = -1)) ∧
      ((pton net.AF_INET6 str).1 = -1 →
        (net.make_address big_endian pton errno dflt str ec).1 = dflt) ∧
      ((pton net.AF_INET6 str).1 ≠ -1 →
        (net.make_address big_endian pton errno dflt str ec).1.level_ = .v6 ∧
        (net.make_address big_endian pton errno dflt str ec).1.ip_ = str ∧
        net.sa_family big_endian (net.make_address big_endian pton errno dflt str ec).1.addr_in_
          = net.AF_INET6) ∧
      ((pton net.AF_INET6 str).1 = 0 →
        (net.make_address big_endian pton errno dflt str ec).2 = ec ∧
        (net.make_address big_endian pton errno dflt str ec).1.ip_ = str ∧
        ((net.make_address big_endian pton errno dflt str ec).1.addr_in_.drop 8).take 16
          = List.replicate 16 0) ∧
      ((pton net.AF_INET6 str).1 = 1 →
        (net.make_address big_endian pton errno dflt str ec).2 = ec ∧
        (net.make_address big_endian pton errno dflt str ec).1.ip_ = str ∧
        ((net.make_address big_endian pton errno dflt str ec).1.addr_in_.drop 8).take 16
          = ((pton net.AF_INET6 str).2 ++ List.replicate 16 0).take 16 ∧
        ((pton net.AF_INET6 str).2.length = 16 →
          ((net.make_address big_endian pton errno dflt str ec).1.addr_in_.drop 8).take 16
            = (pton net.AF_INET6 str).2) ∧
        (net.make_address big_endian pton errno dflt str ec).1.addr_in_.take 28
          = (net.zeroed_sockaddr big_endian net.AF_INET6 28).take 8
              ++ ((pton net.AF_INET6 str).2 ++ List.replicate 16 0).take 16
              ++ List.replicate 4 0)) := by
  constructor
  · intro hdot
    have hb := net.built_sockaddr big_endian dflt.addr_in_ net.AF_INET net.SIZEOF_SOCKADDR_IN 4 4
      (pton net.AF_INET str).1 (pton net.AF_INET str).2 (by decide) (by decide)
    by_cases hr : (pton net.AF_INET str).1 = -1
    · have hne : (pton net.AF_INET str).1 ≠ 0 := by rw [hr]; decide
      have hne1 : (pton net.AF_INET str).1 ≠ 1 := by rw [hr]; decide
      have e : net.make_address big_endian pton errno dflt str ec = (dflt, errno) := by
        unfold net.make_address
        rw [if_pos hdot]
        simp only [hr, if_true]
      rw [e]
      exact ⟨by simp [hr], fun _ => by simp [hr, herr], fun _ => rfl, fun h => absurd hr h,
        fun h0 => absurd h0 hne, fun h1 => absurd h1 hne1⟩
    · have e : net.make_address big_endian pton errno dflt str ec
          = ({ addr_in_ := net.memcpy dflt.addr_in_
                (net.pton_store (net.zeroed_sockaddr big_endian net.AF_INET
                  net.SIZEOF_SOCKADDR_IN) 4 4 (pton net.AF_INET str).1 (pton net.AF_INET str).2)
                net.SIZEOF_SOCKADDR_IN
               ip_ := str
               level_ := .v4 }, ec) := by
        unfold net.make_address
        rw [if_pos hdot]
        simp only [hr, if_false]
      rw [e]
      refine ⟨by simp [hr], ?_, fun h => absurd h hr, fun _ => ⟨rfl, rfl, ?_⟩, ?_, ?_⟩
      · intro hec
        simp [hec, hr]
      · exact hb.1.trans (net.sa_family_zeroed big_endian).1
      · intro h0
        exact ⟨rfl, rfl, (hb.2 h0).trans (net.zeroed_address_bytes big_endian).1⟩
      · intro h1
        have hp := net.built_sockaddr_parsed big_endian dflt.addr_in_ net.AF_INET
          net.SIZEOF_SOCKADDR_IN 4 4 (pton net.AF_INET str).2 (by decide)
        have hz : (net.zeroed_sockaddr big_endian net.AF_INET net.SIZEOF_SOCKADDR_IN).drop (4 + 4)
            = List.replicate 8 0 := by
          cases big_endian <;> decide
        rw [h1]
        refine ⟨rfl, rfl, hp.1, ?_, ?_⟩
        · intro hlen
          exact hp.1.trans (List.take_left' hlen)
        · have h2 := hp.2
          rw [hz] at h2
          exact h2
  · intro hdot
    have hnd : ¬ (str.toList.contains '.' = true) := by rw [hdot]; exact Bool.false_ne_true
    have hb := net.built_sockaddr big_endian dflt.addr_in_ net.AF_INET6 net.SIZEOF_SOCKADDR_IN6
      8 16 (pton net.AF_INET6 str).1 (pton net.AF_INET6 str).2 (by decide) (by decide)
    by_cases hr : (pton net.AF_INET6 str).1 = -1
    · have hne : (pton net.AF_INET6 str).1 ≠ 0 := by rw [hr]; decide
      have hne1 : (pton net.AF_INET6 str).1 ≠ 1 := by rw [hr]; decide
      have e : net.make_address big_endian pton errno dflt str ec = (dflt, errno) := by
        unfold net.make_address
        rw [if_neg hnd]
        simp only [hr, if_true]
      rw [e]
      exact ⟨by simp [hr], fun _ => by simp [hr, herr], fun _ => rfl, fun h => absurd hr h,
        fun h0 => absurd h0 hne, fun h1 => absurd h1 hne1⟩
    · have e : net.make_address big_endian pton errno dflt str ec
          = ({ addr_in_ := net.memcpy dflt.addr_in_
                (net.pton_store (net.zeroed_sockaddr big_endian net.AF_INET6
                  net.SIZEOF_SOCKADDR_IN6) 8 16 (pton net.AF_INET6 str).1
                  (pton net.AF_INET6 str).2)
                net.SIZEOF_SOCKADDR_IN6
               ip_ := str
               level_ := .v6 }, ec) := by
        unfold net.make_address
        rw [if_neg hnd]
        simp only [hr, if_false]
      rw [e]
      refine ⟨by simp [hr], ?_, fun h => absurd h hr, fun _ => ⟨rfl, rfl, ?_⟩, ?_, ?_⟩
      · intro hec
        simp [hec, hr]
      · exact hb.1.trans (net.sa_family_zeroed big_endian).2
      · intro h0
        exact ⟨rfl, rfl, (hb.2 h0).trans (net.zeroed_address_bytes big_endian).2⟩
      · intro h1
        have hp := net.built_sockaddr_parsed big_endian dflt.addr_in_ net.AF_INET6
          net.SIZEOF_SOCKADDR_IN6 8 16 (pton net.AF_INET6 str).2 (by decide)
        have hz : (net.zeroed_sockaddr big_endian net.AF_INET6
            net.SIZEOF_SOCKADDR_IN6).drop (8 + 16) = List.replicate 4 0 := by
          cases big_endian <;> decide
        rw [h1]
        refine ⟨rfl, rfl, hp.1, ?_, ?_⟩
        · intro hlen
          exact hp.1.trans (List.take_left' hlen)
        · have h2 := hp.2
          rw [hz] at h2
          exact h2

/-- The text `999.1.1.1` contains a dot and is no IPv4 address (`inet_pton` returns 0): no error
is reported, the ip text is the input and the address bytes are zero.  The text `127.0.0.1` is
parsed (`inet_pton` returns 1): the address bytes are `127, 0, 0, 1`.  The text `::1` has no dot
and is parsed as IPv6: the 16 address bytes are those of `::1`. -/
theorem make_address_by_dot_witness :
    ("999.1.1.1".toList.contains '.' = true) ∧
    (net.sample_pton net.AF_INET "999.1.1.1").1 = 0 ∧
    (net.make_address false net.sample_pton 97 net.sample_default_address "999.1.1.1" 0).2 = 0 ∧
    (net.make_address false net.sample_pton 97 net.sample_default_address "999.1.1.1" 0).1.ip_
      = "999.1.1.1" ∧
    ((net.make_address false net.sample_pton 97 net.sample_default_address "999.1.1.1"
        0).1.addr_in_.drop 4).take 4 = List.replicate 4 0 ∧
    ("127.0.0.1".toList.contains '.' = true) ∧
    (net.sample_pton net.AF_INET "127.0.0.1").1 = 1 ∧
    (net.make_address false net.sample_pton 97 net.sample_default_address "127.0.0.1" 0).2 = 0 ∧
    ((net.make_address false net.sample_pton 97 net.sample_default_address "127.0.0.1"
        0).1.addr_in_.drop 4).take 4 = [127, 0, 0, 1] ∧
    (net.make_address false net.sample_pton 97 net.sample_default_address "127.0.0.1"
        0).1.addr_in_.take 16 = [2, 0, 0, 0, 127, 0, 0, 1, 0, 0, 0, 0, 0, 0, 0, 0] ∧
    ("::1".toList.contains '.' = false) ∧
    (net.sample_pton net.AF_INET6 "::1").1 = 1 ∧
    ((net.make_address false net.sample_pton 97 net.sample_default_address "::1"
        0).1.addr_in_.drop 8).take 16 = List.replicate 15 0 ++ [1] := by
  have hdot : "999.1.1.1".toList.contains '.' = true := by decide
  have h0 : (net.sample_pton net.AF_INET "999.1.1.1").1 = 0 := by decide
  have h := ((make_address_by_dot false net.sample_pton 97 net.sample_default_address
    "999.1.1.1" 0 (by decide)).1 hdot).2.2.2.2.1 h0
  have hdot2 : "127.0.0.1".toList.contains '.' = true := by decide
  have h1 : (net.sample_pton net.AF_INET "127.0.0.1").1 = 1 := by decide
  have g := ((make_address_by_dot false net.sample_pton 97 net.sample_default_address
    "127.0.0.1" 0 (by decide)).1 hdot2).2.2.2.2.2 h1
  have hdot3 : "::1".toList.contains '.' = false := by decide
  have h3 : (net.sample_pton net.AF_INET6 "::1").1 = 1 := by decide
  have k := ((make_address_by_dot false net.sample_pton 97 net.sample_default_address
    "::1" 0 (by decide)).2 hdot3).2.2.2.2.2 h3
  refine ⟨hdot, h0, h.1, h.2.1, h.2.2, hdot2, h1, g.1, ?_, ?_, hdot3, h3, ?_⟩
  · rw [g.2.2.2.1 (by decide)]; decide
  · rw [g.2.2.2.2]; decide
  · rw [k.2.2.2.1 (by decide)]; decide

/-! ### Acceptor: `bind_and_listen` -/

namespace net

theorem open_failed (s : Socket) (ip : Ip) (tp : Transport) :
    (s.open_ ip tp (-1)).1.handle_ = -1 ∧ (s.open_ ip tp (-1)).2.1 = s.close.2 ∧
    (s.open_ ip tp (-1)).2.2 = true := by
  simp [Socket.open_]

theorem open_succeeded (s : Socket) (ip : Ip) (tp : Transport) (h : Int) (hh : h ≠ -1) :
    (s.open_ ip tp h).1.handle_ = h ∧ (s.open_ ip tp h).2.1 = s.close.2 ∧
    (s.open_ ip tp h).2.2 = false := by
  simp [Socket.open_, hh]

end net

/-- C17. `Acceptor::bind_and_listen`, entered with `ec` unset, stops at the first failing step:
a failed open reports the open error and neither bind nor listen is attempted; a failed bind
reports the bind error, no listen is attempted and the listener keeps the handle it opened; a
failed listen reports the listen error and the listener keeps its handle; `ec` is left unset
exactly when the three steps succeed.  (The error codes taken from `SYSTEM_ERROR_CODE` and
`SOCKET_ERROR_CODE` after a failed call are non-zero.) -/
theorem bind_and_listen_first_failure (a : net.Acceptor) (ip : net.Ip) (os : net.OsAnswers)
    (h1 : os.errno_open ≠ 0) (h2 : os.errno_bind ≠ 0) (h3 : os.errno_listen ≠ 0) :
    (os.open_ok = false →
      (a.bind_and_listen ip os 0).2.2 = os.errno_open ∧
      (a.bind_and_listen ip os 0).2.1 = a.listener_.close.2 ∧
      (∀ k, net.Effect.bind k ∉ (a.bind_and_listen ip os 0).2.1 ∧
        net.Effect.listen k ∉ (a.bind_and_listen ip os 0).2.1) ∧
      (a.bind_and_listen ip os 0).1.listener_.handle_ = -1) ∧
    (os.open_ok = true → os.bind_ok = false →
      (a.bind_and_listen ip os 0).2.2 = os.bind_error ∧
      (∃ calls, (a.bind_and_listen ip os 0).2.1
          = a.listener_.close.2 ++ net.Effect.bind os.os_handle :: calls ∧
        calls = (if os.bind_ret ≠ -1 then [net.Effect.relate os.os_handle] else [])) ∧
      (∀ k, net.Effect.listen k ∉ (a.bind_and_listen ip os 0).2.1) ∧
      (a.bind_and_listen ip os 0).1.listener_.handle_ = os.os_handle) ∧
    (os.open_ok = true → os.bind_ok = true → os.listen_ok = false →
      (a.bind_and_listen ip os 0).2.2 = os.errno_listen ∧
      (a.bind_and_listen ip os 0).2.1
        = a.listener_.close.2 ++ net.Effect.bind os.os_handle ::
            ((if os.windows then [net.Effect.relate os.os_handle] else [])
              ++ [net.Effect.listen os.os_handle]) ∧
      (a.bind_and_listen ip os 0).1.listener_.handle_ = os.os_handle) ∧
    ((a.bind_and_listen ip os 0).2.2 = 0 ↔
      os.open_ok = true ∧ os.bind_ok = true ∧ os.listen_ok = true) ∧
    (a.bind_and_listen ip os 0).1.listener_.ip_ = ip ∧
    (a.bind_and_listen ip os 0).1.listener_.transport_ = .Tcp := by
  by_cases hc : a.listener_.handle_ = -1 <;>
  by_cases ho : os.os_handle = -1 <;>
  by_cases hb : os.bind_ret = -1 <;>
  by_cases hr : os.relate_ec = 0 <;>
  by_cases hl : os.listen_ret = -1 <;>
  cases hw : os.windows <;>
  simp [net.Acceptor.bind_and_listen, net.Socket.open_, net.Socket.bind, net.Socket.close,
    net.Socket.reset, net.OsAnswers.open_ok, net.OsAnswers.bind_ok, net.OsAnswers.listen_ok,
    net.OsAnswers.bind_error, hc, ho, hb, hr, hl, hw, h1, h2, h3]

/-- A fresh acceptor on a host where `::bind` fails with error 98: the error reported is 98, the
only call is the bind on descriptor 5, and the listener still holds 5. -/
theorem bind_and_listen_first_failure_witness :
    ((net.Acceptor.mk (net.Socket.mk false (-1) .v4 .Tcp)).bind_and_listen .v4
        net.sample_bind_fails 0).2.2 = 98 ∧
    (∀ k, net.Effect.listen k ∉ ((net.Acceptor.mk (net.Socket.mk false (-1) .v4 .Tcp)).bind_and_listen
        .v4 net.sample_bind_fails 0).2.1) ∧
    ((net.Acceptor.mk (net.Socket.mk false (-1) .v4 .Tcp)).bind_and_listen .v4
        net.sample_bind_fails 0).1.listener_.handle_ = 5 := by
  have h := (bind_and_listen_first_failure (net.Acceptor.mk (net.Socket.mk false (-1) .v4 .Tcp))
    .v4 net.sample_bind_fails (by decide) (by decide) (by decide)).2.1 (by decide) (by decide)
  exact ⟨h.1, h.2.2.1, h.2.2.2⟩

end magio
